import Mathlib

/-!
Verification of the per-session runtime of the collaborative coding-agent
session orchestrator ("wrench"). The control-plane implementation module
(event utilities, token aggregator, session durable object) is exercised by
unit and integration tests in the repository but the module itself is not in
the source tree; those parts are modelled from the specification, as marked
on each definition. The subscriber rendering pipeline (web client) and the
shared model-validation module are present in the source and are embedded
directly.
-/

namespace Wrench

/-- Modelled from the spec: `getEventCategory(type)` is the authoritative
category mapping used by ingress and by subscribers that filter.
Categories: execution (`token`, `tool_call`, `tool_result`,
`execution_complete`), git (`git_sync`), artifact (`artifact`), and system
for everything else including `heartbeat`. -/
def getEventCategory (t : String) : String :=
  if t = "token" ∨ t = "tool_call" ∨ t = "tool_result" ∨ t = "execution_complete" then
    "execution"
  else if t = "git_sync" then "git"
  else if t = "artifact" then "artifact"
  else "system"

/-- Modelled from the spec: `shouldPersist(type)` is false only for
`heartbeat`; every other event type is persisted to the Event Log. -/
def shouldPersistEvent (t : String) : Bool :=
  t ≠ "heartbeat"

/-- A row of the `events` table. `data` is opaque JSON; the two projections
the tests inspect (`data.content` and `data.messageId`) are modelled as
explicit fields. -/
structure LoggedEvent where
  id : String
  type : String
  dataContent : Option String
  dataMessageId : Option String
  messageId : Option String
  createdAt : Nat
deriving Repr, DecidableEq

/-- The sandbox singleton record of a session. -/
structure SandboxRecord where
  sandboxId : Option String
  status : String
  lastHeartbeat : Option Nat
  gitSyncStatus : Option String
deriving Repr, DecidableEq

/-- An event POSTed by the sandbox to `/internal/sandbox-event`. All carry
`sandboxId` and `timestamp`; `status` is carried by `heartbeat` and
`git_sync` payloads. -/
structure IncomingEvent where
  id : String
  type : String
  content : Option String
  messageId : Option String
  sandboxId : String
  status : String
  timestamp : Nat
deriving Repr, DecidableEq

/-- The part of session state touched by event ingress. -/
structure IngressState where
  eventLog : List LoggedEvent
  sandbox : SandboxRecord
deriving Repr, DecidableEq

/-- Modelled from the spec: ingress policy for one incoming event. A
`heartbeat` updates the sandbox record (`lastHeartbeat`, `status`) and is
never appended; every event passing `shouldPersistEvent` is appended to the
Event Log. -/
def ingestEvent (s : IngressState) (e : IncomingEvent) : IngressState :=
  let s1 :=
    if e.type = "heartbeat" then
      { s with sandbox := { s.sandbox with
          sandboxId := some e.sandboxId
          status := e.status
          lastHeartbeat := some e.timestamp } }
    else s
  if shouldPersistEvent e.type then
    { s1 with eventLog := s1.eventLog ++
        [⟨e.id, e.type, e.content, e.messageId, e.messageId, e.timestamp⟩] }
  else s1

/-- Ingest a sequence of sandbox events in arrival order. -/
def ingestAll (s : IngressState) (es : List IncomingEvent) : IngressState :=
  es.foldl ingestEvent s

theorem ingestEvent_no_heartbeat (s : IngressState) (e : IncomingEvent)
    (h : ∀ ev ∈ s.eventLog, ev.type ≠ "heartbeat") :
    ∀ ev ∈ (ingestEvent s e).eventLog, ev.type ≠ "heartbeat" := by
  intro ev hev
  unfold ingestEvent shouldPersistEvent at hev
  by_cases he : e.type = "heartbeat"
  · simp [he] at hev
    exact h ev hev
  · simp [he] at hev
    rcases hev with hev | hev
    · exact h ev hev
    · rw [hev]
      exact he

theorem ingestAll_no_heartbeat (es : List IncomingEvent) (s : IngressState)
    (h : ∀ ev ∈ s.eventLog, ev.type ≠ "heartbeat") :
    ∀ ev ∈ (ingestAll s es).eventLog, ev.type ≠ "heartbeat" := by
  induction es generalizing s with
  | nil => exact h
  | cons e es ih =>
      exact ih (ingestEvent s e) (ingestEvent_no_heartbeat s e h)

/-- Claim C3: ingesting a heartbeat never appends to the Event Log
(`shouldPersist` is false for `heartbeat` and true for every other type) and
updates the sandbox record's `lastHeartbeat` and `status`; consequently a
log built by ingress from a heartbeat-free log never contains an event of
type `heartbeat`. -/
theorem C3_heartbeat_never_persisted (s : IngressState) (e : IncomingEvent)
    (he : e.type = "heartbeat") :
    (ingestEvent s e).eventLog = s.eventLog ∧
    (ingestEvent s e).sandbox.lastHeartbeat = some e.timestamp ∧
    (ingestEvent s e).sandbox.status = e.status ∧
    shouldPersistEvent "heartbeat" = false ∧
    (∀ t : String, t ≠ "heartbeat" → shouldPersistEvent t = true) ∧
    (∀ (es : List IncomingEvent) (s0 : IngressState),
      (∀ ev ∈ s0.eventLog, ev.type ≠ "heartbeat") →
      ∀ ev ∈ (ingestAll s0 es).eventLog, ev.type ≠ "heartbeat") := by
  refine ⟨?_, ?_, ?_, ?_, ?_, ?_⟩
  · unfold ingestEvent shouldPersistEvent
    simp [he]
  · unfold ingestEvent shouldPersistEvent
    simp [he]
  · unfold ingestEvent shouldPersistEvent
    simp [he]
  · decide
  · intro t ht
    simp [shouldPersistEvent, ht]
  · intro es s0 h0
    exact ingestAll_no_heartbeat es s0 h0

/-- Witness for claim C3 at a concrete heartbeat event and state. -/
theorem C3_heartbeat_never_persisted_witness :
    (ingestEvent ⟨[], ⟨none, "pending", none, none⟩⟩
      ⟨"e1", "heartbeat", none, none, "sb-1", "running", 42⟩).eventLog = [] ∧
    (ingestEvent ⟨[], ⟨none, "pending", none, none⟩⟩
      ⟨"e1", "heartbeat", none, none, "sb-1", "running", 42⟩).sandbox.lastHeartbeat
        = some 42 := by
  have h := C3_heartbeat_never_persisted
    ⟨[], ⟨none, "pending", none, none⟩⟩
    ⟨"e1", "heartbeat", none, none, "sb-1", "running", 42⟩ rfl
  exact ⟨h.1, h.2.1⟩

/-- Message status: `pending → processing → (completed | failed | cancelled)`. -/
inductive MsgStatus
  | pending
  | processing
  | completed
  | failed
  | cancelled
deriving Repr, DecidableEq

/-- A status is terminal when the message can no longer transition. -/
def isTerminalStatus : MsgStatus → Bool
  | .completed => true
  | .failed => true
  | .cancelled => true
  | _ => false

/-- A row of the `messages` table. -/
structure MessageRow where
  id : String
  authorId : String
  content : String
  source : String
  status : MsgStatus
  createdAt : Nat
  startedAt : Option Nat
  completedAt : Option Nat
  reasoningEffort : Option String
deriving Repr, DecidableEq

/-- Modelled from the spec: handling of an `execution_complete` event over
the message table (keyed by message id). The referenced message transitions
to `completed` on `success=true` else `failed` and `completedAt` is set; a
message that is already terminal is left unchanged, which also makes any
second `execution_complete` for the same message a no-op. -/
def applyExecutionComplete (msgs : String → Option MessageRow)
    (mid : String) (success : Bool) (now : Nat) : String → Option MessageRow :=
  fun i =>
    if i = mid then
      match msgs mid with
      | none => none
      | some m =>
          if isTerminalStatus m.status then some m
          else some { m with
            status := if success then .completed else .failed
            completedAt := some now }
    else msgs i

theorem applyExecutionComplete_terminal_noop (msgs : String → Option MessageRow)
    (mid : String) (m : MessageRow) (success : Bool) (now : Nat)
    (hm : msgs mid = some m) (ht : isTerminalStatus m.status = true) :
    applyExecutionComplete msgs mid success now = msgs := by
  funext i
  unfold applyExecutionComplete
  by_cases hi : i = mid
  · simp [hi, hm, ht]
  · simp [hi]

/-- Claim C1: the first `execution_complete` for a non-terminal message
drives it to `completed` (success) or `failed` (failure) with a non-null
`completedAt`; every later `execution_complete` for that message, and any
`execution_complete` whose message is already terminal, leaves the message
table unchanged; messages other than the referenced one are untouched. -/
theorem C1_execution_complete_idempotent (msgs : String → Option MessageRow)
    (mid : String) (m : MessageRow) (success : Bool) (now : Nat)
    (hm : msgs mid = some m) :
    (isTerminalStatus m.status = false →
      ∃ m1 : MessageRow,
        applyExecutionComplete msgs mid success now mid = some m1 ∧
        m1.status = (if success then .completed else .failed) ∧
        m1.completedAt = some now ∧
        isTerminalStatus m1.status = true ∧
        (∀ (success2 : Bool) (now2 : Nat),
          applyExecutionComplete (applyExecutionComplete msgs mid success now)
            mid success2 now2 = applyExecutionComplete msgs mid success now)) ∧
    (isTerminalStatus m.status = true →
      applyExecutionComplete msgs mid success now = msgs) ∧
    (∀ i, i ≠ mid → applyExecutionComplete msgs mid success now i = msgs i) := by
  refine ⟨?_, ?_, ?_⟩
  · intro hnt
    refine ⟨{ m with
        status := if success then .completed else .failed
        completedAt := some now }, ?_, rfl, rfl, ?_, ?_⟩
    · unfold applyExecutionComplete
      simp [hm, hnt]
    · cases success <;> simp [isTerminalStatus]
    · intro success2 now2
      apply applyExecutionComplete_terminal_noop _ _
        { m with
          status := if success then .completed else .failed
          completedAt := some now } success2 now2
      · unfold applyExecutionComplete
        simp [hm, hnt]
      · cases success <;> simp [isTerminalStatus]
  · intro ht
    exact applyExecutionComplete_terminal_noop msgs mid m success now hm ht
  · intro i hi
    unfold applyExecutionComplete
    simp [hi]

/-- A concrete processing message used in witnesses. -/
def sampleProcessingMsg : MessageRow :=
  ⟨"msg-complete-test", "p1", "Test prompt", "web", .processing, 100, some 150, none, none⟩

/-- A one-row message table holding the sample processing message. -/
def sampleMsgTable : String → Option MessageRow :=
  fun i => if i = "msg-complete-test" then some sampleProcessingMsg else none

/-- Witness for claim C1 at a concrete processing message. -/
theorem C1_execution_complete_idempotent_witness :
    ∃ m1 : MessageRow,
      applyExecutionComplete sampleMsgTable "msg-complete-test" true 200
        "msg-complete-test" = some m1 ∧
      m1.status = .completed ∧ m1.completedAt = some 200 := by
  have h := C1_execution_complete_idempotent sampleMsgTable "msg-complete-test"
    sampleProcessingMsg true 200 (by rfl)
  rcases h.1 (by rfl) with ⟨m1, h1, h2, h3, _⟩
  exact ⟨m1, h1, by simpa using h2, h3⟩

theorem str_join_append (a b : List String) :
    String.join (a ++ b) = String.join a ++ String.join b := by
  apply String.ext
  simp [String.join_eq, String.data_append]

theorem str_append_empty (s : String) : s ++ "" = s := by
  apply String.ext
  simp [String.data_append]

theorem str_empty_append (s : String) : "" ++ s = s := by
  apply String.ext
  simp [String.data_append]

/-- State of the token aggregator: the buffered tokens, the messageId that
owns the buffer, and whether the flush callback is still attached. -/
structure AggState where
  buffer : List String
  currentMessageId : Option String
  callbackAttached : Bool
deriving Repr, DecidableEq

/-- A freshly constructed aggregator with its flush callback installed. -/
def aggInit : AggState := ⟨[], none, true⟩

/-- The externally visible triggers of the aggregator: token arrival, timer
expiry, manual flush, destruction. -/
inductive AggOp
  | add (token messageId : String)
  | timerFire
  | flushNow
  | destroyNow
deriving Repr, DecidableEq

/-- Modelled from the spec: a flush drains the buffer and hands the joined
text (keyed by the buffered messageId) to the flush callback; an empty flush
is a no-op; nothing is emitted once the callback is detached. -/
def flushStep (s : AggState) : AggState × List (String × String) :=
  if s.buffer.isEmpty then (s, [])
  else
    ({ s with buffer := [] },
     if s.callbackAttached then
       [(String.join s.buffer, s.currentMessageId.getD "")]
     else [])

/-- Modelled from the spec: on token arrival the buffer is drained first
when the incoming messageId differs from the buffered one. -/
def keyChangeFlush (s : AggState) (mid : String) : AggState × List (String × String) :=
  if s.currentMessageId = some mid then (s, []) else flushStep s

/-- Append the arriving token to the buffer and record its messageId. -/
def pushTok (s : AggState) (tok mid : String) : AggState :=
  { (keyChangeFlush s mid).1 with
      currentMessageId := some mid
      buffer := (keyChangeFlush s mid).1.buffer ++ [tok] }

/-- Modelled from the spec: drain the buffer when its length has reached the
size bound. -/
def sizeFlush (maxTokens : Nat) (s : AggState) : AggState × List (String × String) :=
  if maxTokens ≤ s.buffer.length then flushStep s else (s, [])

/-- Modelled from the spec: one aggregator transition. `add` first flushes
on a messageId change, appends the token, then flushes when the buffered
length reaches the size bound; timer expiry and a manual flush drain the
buffer; `destroy` flushes and then detaches the callback. -/
def aggStep (maxTokens : Nat) (s : AggState) : AggOp → AggState × List (String × String)
  | .add tok mid =>
      ((sizeFlush maxTokens (pushTok s tok mid)).1,
       (keyChangeFlush s mid).2 ++ (sizeFlush maxTokens (pushTok s tok mid)).2)
  | .timerFire => flushStep s
  | .flushNow => flushStep s
  | .destroyNow =>
      ({ (flushStep s).1 with callbackAttached := false }, (flushStep s).2)

/-- Run a trace of aggregator operations, collecting every flush emission. -/
def aggRun (maxTokens : Nat) (s : AggState) : List AggOp → AggState × List (String × String)
  | [] => (s, [])
  | op :: ops =>
      let p := aggStep maxTokens s op
      let q := aggRun maxTokens p.1 ops
      (q.1, p.2 ++ q.2)

/-- Tokens an operation adds for a given messageId. -/
def addedByOp (mid : String) : AggOp → List String
  | .add t m => if m = mid then [t] else []
  | _ => []

/-- Tokens a trace adds for a given messageId, in arrival order. -/
def addedFor (mid : String) (ops : List AggOp) : List String :=
  (ops.map (addedByOp mid)).flatten

/-- The flushed chunks delivered to the callback for a given messageId. -/
def flushedFor (mid : String) (outs : List (String × String)) : List String :=
  (outs.filter (fun o => o.2 == mid)).map (fun o => o.1)

/-- Tokens currently buffered on behalf of a given messageId. -/
def bufFor (mid : String) (s : AggState) : List String :=
  if s.currentMessageId = some mid then s.buffer else []

/-- A nonempty buffer always has an owning messageId. -/
def aggWf (s : AggState) : Prop :=
  s.buffer = [] ∨ ∃ k, s.currentMessageId = some k

theorem flushedFor_append (mid : String) (a b : List (String × String)) :
    flushedFor mid (a ++ b) = flushedFor mid a ++ flushedFor mid b := by
  simp [flushedFor]

theorem bufFor_of_empty (mid : String) (s : AggState) (h : s.buffer = []) :
    bufFor mid s = [] := by
  unfold bufFor
  split <;> simp [h]

theorem flushStep_buffer (s : AggState) : (flushStep s).1.buffer = [] := by
  unfold flushStep
  split
  · next h => simpa [List.isEmpty_iff] using h
  · rfl

theorem flushStep_mid (s : AggState) :
    (flushStep s).1.currentMessageId = s.currentMessageId := by
  unfold flushStep
  split <;> rfl

theorem flushStep_attached (s : AggState) :
    (flushStep s).1.callbackAttached = s.callbackAttached := by
  unfold flushStep
  split <;> rfl

theorem flushStep_out (s : AggState) (hwf : aggWf s)
    (hatt : s.callbackAttached = true) (mid : String) :
    String.join (flushedFor mid (flushStep s).2) = String.join (bufFor mid s) := by
  unfold flushStep
  rcases hwf with h | ⟨k, hk⟩
  · simp [h, bufFor_of_empty mid s h, flushedFor, String.join]
  · by_cases hb : s.buffer.isEmpty
    · have hb' : s.buffer = [] := by simpa [List.isEmpty_iff] using hb
      simp [hb, bufFor_of_empty mid s hb', flushedFor, String.join]
    · simp only [hb, if_false, hatt, if_true]
      by_cases hm : k = mid
      · subst hm
        simp [flushedFor, hk, bufFor, String.join, str_append_empty, str_empty_append]
      · have : (some k = some mid) = False := by simp [hm]
        simp [flushedFor, hk, bufFor, hm, Option.getD, String.join]

theorem flushStep_detached (s : AggState) (h : s.callbackAttached = false) :
    (flushStep s).2 = [] := by
  unfold flushStep
  split <;> simp [h]

theorem str_append_assoc (a b c : String) : a ++ b ++ c = a ++ (b ++ c) := by
  apply String.ext
  simp [String.data_append]

theorem str_join_singleton (x : String) : String.join [x] = x := by
  apply String.ext
  simp [String.join_eq]

theorem account_flushStep (s : AggState) (hwf : aggWf s)
    (hatt : s.callbackAttached = true) (mid : String) :
    String.join (flushedFor mid (flushStep s).2) ++
      String.join (bufFor mid (flushStep s).1) = String.join (bufFor mid s) := by
  rw [flushStep_out s hwf hatt mid, bufFor_of_empty mid _ (flushStep_buffer s)]
  simp [String.join, str_append_empty]

theorem keyChangeFlush_account (s : AggState) (mid2 : String) (hwf : aggWf s)
    (hatt : s.callbackAttached = true) (mid : String) :
    String.join (flushedFor mid (keyChangeFlush s mid2).2) ++
      String.join (bufFor mid (keyChangeFlush s mid2).1) = String.join (bufFor mid s) := by
  unfold keyChangeFlush
  split
  · simp [flushedFor, String.join, str_empty_append]
  · exact account_flushStep s hwf hatt mid

theorem keyChangeFlush_attached (s : AggState) (mid2 : String) :
    (keyChangeFlush s mid2).1.callbackAttached = s.callbackAttached := by
  unfold keyChangeFlush
  split
  · rfl
  · exact flushStep_attached s

theorem keyChangeFlush_wf (s : AggState) (mid2 : String) (hwf : aggWf s) :
    aggWf (keyChangeFlush s mid2).1 := by
  unfold keyChangeFlush
  split
  · exact hwf
  · exact Or.inl (flushStep_buffer s)

theorem keyChangeFlush_detached (s : AggState) (mid2 : String)
    (h : s.callbackAttached = false) : (keyChangeFlush s mid2).2 = [] := by
  unfold keyChangeFlush
  split
  · rfl
  · exact flushStep_detached s h

theorem pushTok_current (s : AggState) (tok mid2 : String) :
    (pushTok s tok mid2).currentMessageId = some mid2 := rfl

theorem pushTok_attached (s : AggState) (tok mid2 : String) :
    (pushTok s tok mid2).callbackAttached = s.callbackAttached := by
  show (keyChangeFlush s mid2).1.callbackAttached = s.callbackAttached
  exact keyChangeFlush_attached s mid2

theorem pushTok_wf (s : AggState) (tok mid2 : String) : aggWf (pushTok s tok mid2) :=
  Or.inr ⟨mid2, rfl⟩

theorem pushTok_buf (s : AggState) (tok mid2 mid : String) :
    bufFor mid (pushTok s tok mid2)
      = bufFor mid (keyChangeFlush s mid2).1 ++ (if mid2 = mid then [tok] else []) := by
  by_cases hm : mid2 = mid
  · subst hm
    unfold pushTok bufFor keyChangeFlush
    split
    · next hc =>
        simp [hc]
    · next hc =>
        simp [flushStep_buffer, flushStep_mid, hc]
  · have h1 : bufFor mid (pushTok s tok mid2) = [] := by
      unfold bufFor
      rw [pushTok_current]
      simp [hm]
    rw [h1]
    unfold bufFor keyChangeFlush
    split
    · next hc =>
        rw [hc]
        simp [hm]
    · next hc =>
        split
        · simp [flushStep_buffer]
        · simp

theorem sizeFlush_account (n : Nat) (s : AggState) (hwf : aggWf s)
    (hatt : s.callbackAttached = true) (mid : String) :
    String.join (flushedFor mid (sizeFlush n s).2) ++
      String.join (bufFor mid (sizeFlush n s).1) = String.join (bufFor mid s) := by
  unfold sizeFlush
  split
  · exact account_flushStep s hwf hatt mid
  · simp [flushedFor, String.join, str_empty_append]

theorem sizeFlush_attached (n : Nat) (s : AggState) :
    (sizeFlush n s).1.callbackAttached = s.callbackAttached := by
  unfold sizeFlush
  split
  · exact flushStep_attached s
  · rfl

theorem sizeFlush_wf (n : Nat) (s : AggState) (hwf : aggWf s) :
    aggWf (sizeFlush n s).1 := by
  unfold sizeFlush
  split
  · exact Or.inl (flushStep_buffer s)
  · exact hwf

theorem sizeFlush_detached (n : Nat) (s : AggState)
    (h : s.callbackAttached = false) : (sizeFlush n s).2 = [] := by
  unfold sizeFlush
  split
  · exact flushStep_detached s h
  · rfl

theorem aggStep_account (n : Nat) (s : AggState) (op : AggOp)
    (hop : op ≠ .destroyNow) (hwf : aggWf s) (hatt : s.callbackAttached = true)
    (mid : String) :
    String.join (flushedFor mid (aggStep n s op).2) ++
      String.join (bufFor mid (aggStep n s op).1)
      = String.join (bufFor mid s) ++ String.join (addedByOp mid op) := by
  cases op with
  | timerFire =>
      have h := account_flushStep s hwf hatt mid
      simpa [aggStep, addedByOp, String.join, str_append_empty] using h
  | flushNow =>
      have h := account_flushStep s hwf hatt mid
      simpa [aggStep, addedByOp, String.join, str_append_empty] using h
  | destroyNow => exact absurd rfl hop
  | add tok mid2 =>
      have hpatt : (pushTok s tok mid2).callbackAttached = true :=
        (pushTok_attached s tok mid2).trans hatt
      have hsf := sizeFlush_account n (pushTok s tok mid2) (pushTok_wf s tok mid2)
        hpatt mid
      have hkcf := keyChangeFlush_account s mid2 hwf hatt mid
      have hadd : String.join (bufFor mid (pushTok s tok mid2))
          = String.join (bufFor mid (keyChangeFlush s mid2).1)
            ++ String.join (addedByOp mid (.add tok mid2)) := by
        rw [pushTok_buf s tok mid2 mid, str_join_append]
        have : addedByOp mid (AggOp.add tok mid2) = if mid2 = mid then [tok] else [] := rfl
        rw [this]
      show String.join (flushedFor mid ((keyChangeFlush s mid2).2
        ++ (sizeFlush n (pushTok s tok mid2)).2)) ++ _ = _
      rw [flushedFor_append, str_join_append, str_append_assoc]
      show _ ++ (_ ++ String.join (bufFor mid (sizeFlush n (pushTok s tok mid2)).1)) = _
      rw [hsf, hadd, ← str_append_assoc, hkcf]

theorem aggStep_wf (n : Nat) (s : AggState) (op : AggOp) :
    aggWf (aggStep n s op).1 := by
  cases op with
  | timerFire => exact Or.inl (flushStep_buffer s)
  | flushNow => exact Or.inl (flushStep_buffer s)
  | destroyNow => exact Or.inl (flushStep_buffer s)
  | add tok mid2 => exact sizeFlush_wf n (pushTok s tok mid2) (pushTok_wf s tok mid2)

theorem aggStep_attached (n : Nat) (s : AggState) (op : AggOp)
    (hop : op ≠ .destroyNow) :
    (aggStep n s op).1.callbackAttached = s.callbackAttached := by
  cases op with
  | timerFire => exact flushStep_attached s
  | flushNow => exact flushStep_attached s
  | destroyNow => exact absurd rfl hop
  | add tok mid2 =>
      exact (sizeFlush_attached n (pushTok s tok mid2)).trans (pushTok_attached s tok mid2)

theorem addedFor_cons (mid : String) (op : AggOp) (ops : List AggOp) :
    addedFor mid (op :: ops) = addedByOp mid op ++ addedFor mid ops := by
  simp [addedFor]

theorem aggRun_account (n : Nat) (ops : List AggOp) (s : AggState)
    (hnd : ∀ op ∈ ops, op ≠ AggOp.destroyNow) (hwf : aggWf s)
    (hatt : s.callbackAttached = true) (mid : String) :
    String.join (flushedFor mid (aggRun n s ops).2) ++
      String.join (bufFor mid (aggRun n s ops).1)
      = String.join (bufFor mid s) ++ String.join (addedFor mid ops) := by
  induction ops generalizing s with
  | nil => simp [aggRun, addedFor, flushedFor, String.join, str_append_empty]
  | cons op ops ih =>
      have hop : op ≠ AggOp.destroyNow := hnd op (by simp)
      have hstep := aggStep_account n s op hop hwf hatt mid
      have hwf' := aggStep_wf n s op
      have hatt' : (aggStep n s op).1.callbackAttached = true := by
        rw [aggStep_attached n s op hop]; exact hatt
      have hrec := ih (aggStep n s op).1
        (fun o ho => hnd o (List.mem_cons_of_mem _ ho)) hwf' hatt'
      simp only [aggRun]
      rw [flushedFor_append, str_join_append, str_append_assoc, hrec,
        ← str_append_assoc, hstep, addedFor_cons mid op ops, str_join_append,
        str_append_assoc]

theorem aggRun_append (n : Nat) (s : AggState) (a b : List AggOp) :
    aggRun n s (a ++ b)
      = ((aggRun n (aggRun n s a).1 b).1,
         (aggRun n s a).2 ++ (aggRun n (aggRun n s a).1 b).2) := by
  induction a generalizing s with
  | nil => simp [aggRun]
  | cons op a ih =>
      simp only [List.cons_append, aggRun, List.append_eq]
      rw [ih (aggStep n s op).1]
      simp [aggRun, List.append_assoc]

/-- Claim C2: for every size bound, every messageId, and every trace of
triggers (token arrivals, timer expiries, manual flushes) without a destroy,
ending the trace with a drain makes the concatenation of the chunks flushed
for that messageId equal to the concatenation of the tokens added for it, in
arrival order. -/
theorem C2_aggregator_concat (maxTokens : Nat) (ops : List AggOp) (mid : String)
    (hnd : ∀ op ∈ ops, op ≠ AggOp.destroyNow) :
    String.join (flushedFor mid (aggRun maxTokens aggInit (ops ++ [AggOp.flushNow])).2)
      = String.join (addedFor mid ops) := by
  have hnd' : ∀ op ∈ ops ++ [AggOp.flushNow], op ≠ AggOp.destroyNow := by
    intro op hmem
    rcases List.mem_append.mp hmem with h | h
    · exact hnd op h
    · simp at h
      subst h
      intro hcontra
      cases hcontra
  have hacc := aggRun_account maxTokens (ops ++ [AggOp.flushNow]) aggInit hnd'
    (Or.inl rfl) rfl mid
  have hfinal : (aggRun maxTokens aggInit (ops ++ [AggOp.flushNow])).1.buffer = [] := by
    rw [aggRun_append]
    simp [aggRun, aggStep, flushStep_buffer]
  rw [bufFor_of_empty mid _ hfinal] at hacc
  have haddf : addedFor mid (ops ++ [AggOp.flushNow]) = addedFor mid ops := by
    simp [addedFor, addedByOp]
  rw [haddf] at hacc
  have hinit : bufFor mid aggInit = [] := rfl
  rw [hinit] at hacc
  simpa [String.join, str_append_empty, str_empty_append] using hacc

/-- Witness for claim C2: three tokens for msg-1 flushed as one chunk. -/
theorem C2_aggregator_concat_witness :
    String.join (flushedFor "msg-1"
      (aggRun 100 aggInit
        ([AggOp.add "Hello" "msg-1", AggOp.add " " "msg-1",
          AggOp.add "World" "msg-1"] ++ [AggOp.flushNow])).2)
      = "Hello World" := by
  have h := C2_aggregator_concat 100
    [AggOp.add "Hello" "msg-1", AggOp.add " " "msg-1", AggOp.add "World" "msg-1"]
    "msg-1" (by decide)
  rw [h]
  decide

theorem aggStep_detached (n : Nat) (s : AggState) (op : AggOp)
    (h : s.callbackAttached = false) :
    (aggStep n s op).2 = [] ∧ (aggStep n s op).1.callbackAttached = false := by
  cases op with
  | timerFire => exact ⟨flushStep_detached s h, (flushStep_attached s).trans h⟩
  | flushNow => exact ⟨flushStep_detached s h, (flushStep_attached s).trans h⟩
  | destroyNow =>
      refine ⟨flushStep_detached s h, rfl⟩
  | add tok mid2 =>
      have hp : (pushTok s tok mid2).callbackAttached = false :=
        (pushTok_attached s tok mid2).trans h
      refine ⟨?_, ?_⟩
      · show (keyChangeFlush s mid2).2 ++ (sizeFlush n (pushTok s tok mid2)).2 = []
        rw [keyChangeFlush_detached s mid2 h, sizeFlush_detached n _ hp]
        rfl
      · show (sizeFlush n (pushTok s tok mid2)).1.callbackAttached = false
        rw [sizeFlush_attached]
        exact hp

theorem aggRun_detached (n : Nat) (ops : List AggOp) (s : AggState)
    (h : s.callbackAttached = false) :
    (aggRun n s ops).2 = [] := by
  induction ops generalizing s with
  | nil => rfl
  | cons op ops ih =>
      have hstep := aggStep_detached n s op h
      simp [aggRun, hstep.1, ih (aggStep n s op).1 hstep.2]

/-- Claim C9: a manual flush with an empty buffer never invokes the flush
callback (and leaves the state unchanged); destroy first flushes the
buffered tokens to the callback and then detaches it, so every trace of
operations performed after a destroy produces no callback invocation. -/
theorem C9_flush_empty_destroy (maxTokens : Nat) (s : AggState) :
    (s.buffer = [] →
      (aggStep maxTokens s AggOp.flushNow).2 = [] ∧
      (aggStep maxTokens s AggOp.flushNow).1 = s) ∧
    ((aggStep maxTokens s AggOp.destroyNow).1.callbackAttached = false ∧
      (aggStep maxTokens s AggOp.destroyNow).2 = (flushStep s).2) ∧
    (s.callbackAttached = true → s.buffer ≠ [] →
      (aggStep maxTokens s AggOp.destroyNow).2
        = [(String.join s.buffer, s.currentMessageId.getD "")]) ∧
    (∀ ops : List AggOp,
      (aggRun maxTokens (aggStep maxTokens s AggOp.destroyNow).1 ops).2 = []) := by
  refine ⟨?_, ⟨rfl, rfl⟩, ?_, ?_⟩
  · intro hb
    constructor
    · simp [aggStep, flushStep, hb]
    · simp [aggStep, flushStep, hb]
  · intro hatt hb
    have hne : ¬ s.buffer.isEmpty := by simpa [List.isEmpty_iff] using hb
    simp [aggStep, flushStep, hne, hatt]
  · intro ops
    exact aggRun_detached maxTokens ops _ rfl

/-- Witness for claim C9 at a concrete buffered state. -/
theorem C9_flush_empty_destroy_witness :
    (aggStep 100 ⟨[], none, true⟩ AggOp.flushNow).2 = [] ∧
    (aggStep 100 ⟨["Final"], some "msg-1", true⟩ AggOp.destroyNow).2
      = [("Final", "msg-1")] ∧
    (aggRun 100 (aggStep 100 ⟨["Final"], some "msg-1", true⟩ AggOp.destroyNow).1
      [AggOp.add "More" "msg-2", AggOp.timerFire]).2 = [] := by
  have h1 := (C9_flush_empty_destroy 100 ⟨[], none, true⟩).1 rfl
  have h2 := (C9_flush_empty_destroy 100 ⟨["Final"], some "msg-1", true⟩).2.2.1
    rfl (by decide)
  have h3 := (C9_flush_empty_destroy 100 ⟨["Final"], some "msg-1", true⟩).2.2.2
    [AggOp.add "More" "msg-2", AggOp.timerFire]
  refine ⟨h1.1, ?_, h3⟩
  rw [h2]
  decide

/-- The total-order key of the Event Log: the `(createdAt, id)` tuple. -/
def eventKey (e : LoggedEvent) : Nat × String := (e.createdAt, e.id)

/-- Lexicographic order on `(createdAt, id)` keys. -/
def keyLt (a b : Nat × String) : Prop :=
  a.1 < b.1 ∨ (a.1 = b.1 ∧ a.2 < b.2)

instance keyLtDecidable : DecidableRel keyLt := fun a b => by
  unfold keyLt
  infer_instance

theorem keyLt_trans {a b c : Nat × String} (h1 : keyLt a b) (h2 : keyLt b c) :
    keyLt a c := by
  rcases h1 with h1 | ⟨h1e, h1s⟩ <;> rcases h2 with h2 | ⟨h2e, h2s⟩
  · exact Or.inl (lt_trans h1 h2)
  · exact Or.inl (h2e ▸ h1)
  · exact Or.inl (h1e ▸ h2)
  · exact Or.inr ⟨h1e.trans h2e, lt_trans h1s h2s⟩

theorem keyLt_ne {a b : Nat × String} (h : keyLt a b) : a ≠ b := by
  intro he
  subst he
  rcases h with h | ⟨_, h⟩
  · exact lt_irrefl _ h
  · exact lt_irrefl _ h

/-- Type filter of the paginated event read (applied in the store). -/
def matchesType (tf : Option String) (e : LoggedEvent) : Bool :=
  match tf with
  | none => true
  | some t => e.type == t

/-- Cursor filter: keep events strictly past the cursor key. -/
def afterCursor (cursor : Option (Nat × String)) (e : LoggedEvent) : Bool :=
  match cursor with
  | none => true
  | some c => decide (keyLt c (eventKey e))

/-- Response of a paginated event read. -/
structure EventsPage where
  events : List LoggedEvent
  hasMore : Bool
  cursor : Option (Nat × String)
deriving Repr, DecidableEq

/-- Modelled from the spec: forward-paginated read over the Event Log with
an optional type filter; the returned cursor encodes exactly the
`(createdAt, id)` tuple of the last item and is present when more items
remain. -/
def listEventsPage (log : List LoggedEvent) (tf : Option String) (limit : Nat)
    (cursor : Option (Nat × String)) : EventsPage :=
  let matching := (log.filter (matchesType tf)).filter (afterCursor cursor)
  let page := matching.take limit
  let more := decide (limit < matching.length)
  ⟨page, more, if more then page.getLast?.map eventKey else none⟩

theorem pairwise_rel_getLast {α : Type} (r : α → α → Prop) (l : List α)
    (hp : l.Pairwise r) (e : α) (he : e ∈ l) (g : α)
    (hg : l.getLast? = some g) : e = g ∨ r e g := by
  induction l with
  | nil => cases he
  | cons a t ih =>
      cases t with
      | nil =>
          simp at he hg
          subst he hg
          exact Or.inl rfl
      | cons b t2 =>
          have hg' : (b :: t2).getLast? = some g := by
            simpa [List.getLast?_cons_cons] using hg
          have hpc := List.pairwise_cons.mp hp
          rcases List.mem_cons.mp he with rfl | he'
          · refine Or.inr (hpc.1 g ?_)
            exact List.mem_of_mem_getLast? hg'
          · exact ih hpc.2 he' hg'

theorem C4_pagination_no_overlap (log : List LoggedEvent) (tf : Option String)
    (limit : Nat)
    (hsorted : log.Pairwise (fun a b => keyLt (eventKey a) (eventKey b)))
    (hids : log.Pairwise (fun a b => a.id ≠ b.id))
    (hmore : (listEventsPage log tf limit none).hasMore = true) :
    (∀ e2 ∈ (listEventsPage log tf limit
        ((listEventsPage log tf limit none).cursor)).events,
      ∀ e1 ∈ (listEventsPage log tf limit none).events, e2.id ≠ e1.id) ∧
    (1 ≤ limit → ((listEventsPage log tf limit none).cursor).isSome = true) ∧
    (∀ lim2 : Nat, (log.filter (matchesType tf)).length ≤ lim2 →
      (listEventsPage log tf lim2 none).hasMore = false) := by
  have hfl : (log.filter (matchesType tf)).filter (afterCursor none)
      = log.filter (matchesType tf) := by
    simp [afterCursor]
  refine ⟨?_, ?_, ?_⟩
  · intro e2 he2 e1 he1
    -- page 1 and the cursor it returned
    simp only [listEventsPage, hfl] at he1 hmore
    simp only [listEventsPage] at he2
    have hp1sorted : ((log.filter (matchesType tf)).take limit).Pairwise
        (fun a b => keyLt (eventKey a) (eventKey b)) :=
      (hsorted.sublist (List.filter_sublist log)).sublist
        (List.take_sublist limit _)
    -- the cursor is the key of the last element of page 1
    rcases hc : ((log.filter (matchesType tf)).take limit).getLast? with _ | g
    · exfalso
      rw [List.getLast?_eq_none_iff] at hc
      rw [hc] at he1
      cases he1
    · rw [hfl, hmore, hc] at he2
      simp only [Option.map_some, if_true] at he2
      have he2' := List.mem_of_mem_take he2
      have he2f := List.mem_filter.mp he2'
      have hlt2 : keyLt (eventKey g) (eventKey e2) := by
        have := he2f.2
        simpa [afterCursor] using this
      have hle1 : e1 = g ∨ keyLt (eventKey e1) (eventKey g) :=
        pairwise_rel_getLast _ _ hp1sorted e1 he1 g hc
      have hlt : keyLt (eventKey e1) (eventKey e2) := by
        rcases hle1 with rfl | h
        · exact hlt2
        · exact keyLt_trans h hlt2
      have hne : e1 ≠ e2 := by
        intro he
        exact keyLt_ne hlt (by rw [he])
      have he1log : e1 ∈ log :=
        List.mem_of_mem_filter (List.mem_of_mem_take he1)
      have he2log : e2 ∈ log :=
        List.mem_of_mem_filter (List.mem_of_mem_filter he2')
      exact (hids.forall (fun _ _ h => h.symm) he2log he1log hne.symm)
  · intro hlim
    simp only [listEventsPage, hfl] at hmore ⊢
    rw [hmore]
    simp only [if_true]
    have hlen : 1 ≤ (log.filter (matchesType tf)).length := by
      have := of_decide_eq_true hmore
      omega
    have hne : (log.filter (matchesType tf)).take limit ≠ [] := by
      simp only [ne_eq, List.take_eq_nil_iff]
      intro h
      rcases h with h | h
      · omega
      · rw [h] at hlen
        simp at hlen
    have hsome : (((log.filter (matchesType tf)).take limit).getLast?).isSome :=
      List.getLast?_isSome.mpr hne
    simpa [Option.isSome_map] using hsome
  · intro lim2 hlen
    simp [listEventsPage, hfl]
    omega

/-- A seeded Event Log with seven `error` events, mirroring the pagination
integration test. -/
def samplePageLog : List LoggedEvent :=
  [⟨"evt-page-0", "error", none, none, none, 10⟩,
   ⟨"evt-page-1", "error", none, none, none, 11⟩,
   ⟨"evt-page-2", "error", none, none, none, 12⟩,
   ⟨"evt-page-3", "error", none, none, none, 13⟩,
   ⟨"evt-page-4", "error", none, none, none, 14⟩,
   ⟨"evt-page-5", "error", none, none, none, 15⟩,
   ⟨"evt-page-6", "error", none, none, none, 16⟩]

/-- Witness for claim C4: two consecutive pages of three over the seeded
seven-event log share no event id. -/
theorem C4_pagination_no_overlap_witness :
    ((listEventsPage samplePageLog (some "error") 3
        ((listEventsPage samplePageLog (some "error") 3 none).cursor)).events.all
      (fun e2 => (listEventsPage samplePageLog (some "error") 3 none).events.all
        (fun e1 => e2.id != e1.id))) = true := by
  have h := C4_pagination_no_overlap samplePageLog (some "error") 3
    (by decide) (by decide) (by decide)
  rw [List.all_eq_true]
  intro e2 he2
  rw [List.all_eq_true]
  intro e1 he1
  simpa using h.1 e2 he2 e1 he1

/-- Valid model names supported by the system (packages/shared/src/models.ts). -/
def VALID_MODELS : List String :=
  ["claude-haiku-4-5", "claude-sonnet-4-5", "claude-opus-4-5"]

/-- Default model to use when none specified or invalid. -/
def DEFAULT_MODEL : String := "claude-haiku-4-5"

/-- Per-model reasoning configuration entry. -/
structure ModelReasoningConfig where
  efforts : List String
  defaultEffort : Option String
deriving Repr, DecidableEq

/-- Per-model reasoning configuration map (MODEL_REASONING_CONFIG). -/
def MODEL_REASONING_CONFIG (m : String) : Option ModelReasoningConfig :=
  if m = "claude-haiku-4-5" then some ⟨["high", "max"], some "max"⟩
  else if m = "claude-sonnet-4-5" then some ⟨["high", "max"], some "max"⟩
  else if m = "claude-opus-4-5" then some ⟨["high", "max"], some "max"⟩
  else none

/-- Check if a model name is valid (isValidModel). -/
def isValidModel (m : String) : Bool := VALID_MODELS.contains m

/-- Get reasoning configuration for a model (getReasoningConfig). -/
def getReasoningConfig (m : String) : Option ModelReasoningConfig :=
  if isValidModel m then MODEL_REASONING_CONFIG m else none

/-- Check if a reasoning effort is valid for a given model
(isValidReasoningEffort). -/
def isValidReasoningEffort (m e : String) : Bool :=
  match getReasoningConfig m with
  | none => false
  | some c => c.efforts.contains e

/-- Get the default reasoning effort for a model (getDefaultReasoningEffort). -/
def getDefaultReasoningEffort (m : String) : Option String :=
  (getReasoningConfig m).bind (fun c => c.defaultEffort)

/-- Get a valid model or fall back to default (getValidModelOrDefault). -/
def getValidModelOrDefault (m : Option String) : String :=
  match m with
  | some s => if isValidModel s then s else DEFAULT_MODEL
  | none => DEFAULT_MODEL

/-- A row of the `participants` table. -/
structure ParticipantRow where
  id : String
  userId : String
  role : String
  joinedAt : Nat
  wsAuthToken : Option String
  wsTokenCreatedAt : Option Nat
  githubLogin : Option String
  githubName : Option String
deriving Repr, DecidableEq

/-- The per-session persisted state surface. -/
structure SessionState where
  sessionStatus : String
  model : String
  sessionReasoningEffort : Option String
  participants : List ParticipantRow
  messages : List MessageRow
  eventLog : List LoggedEvent
deriving Repr, DecidableEq

/-- Modelled from the spec: unknown reasoning effort values are silently
dropped at storage time; a valid effort is stored as given. -/
def storeEffort (model : String) (effort : Option String) : Option String :=
  match effort with
  | some e => if isValidReasoningEffort model e then some e else none
  | none => none

/-- Modelled from the spec: `init` creates the session row (validating the
model against the closed set and silently dropping an invalid reasoning
effort) and the owner participant row. -/
def initSession (model : Option String) (reasoningEffort : Option String)
    (userId ownerParticipantId : String) (now : Nat) : SessionState :=
  { sessionStatus := "created"
    model := getValidModelOrDefault model
    sessionReasoningEffort := storeEffort (getValidModelOrDefault model) reasoningEffort
    participants := [⟨ownerParticipantId, userId, "owner", now, none, none, none, none⟩]
    messages := []
    eventLog := [] }

/-- Modelled from the spec: `enqueuePrompt` rejects archived sessions,
ensures the author has a participant row (creating one with role `member`),
appends a `user_message` event whose data carries the messageId and the
content, and inserts the message row with status `pending` (an invalid
reasoning effort is dropped to null). -/
def enqueuePrompt (st : SessionState) (content authorId source : String)
    (reasoningEffort : Option String)
    (newMsgId newParticipantId newEventId : String) (now : Nat) :
    Except String (SessionState × String) :=
  if st.sessionStatus = "archived" then .error "session_terminal"
  else
    let parts :=
      if st.participants.any (fun p => p.userId == authorId) then st.participants
      else st.participants ++
        [⟨newParticipantId, authorId, "member", now, none, none, none, none⟩]
    let msg : MessageRow :=
      ⟨newMsgId, authorId, content, source, .pending, now, none, none,
        storeEffort st.model reasoningEffort⟩
    let ev : LoggedEvent :=
      ⟨newEventId, "user_message", some content, some newMsgId, some newMsgId, now⟩
    .ok ({ st with
            participants := parts
            messages := st.messages ++ [msg]
            eventLog := st.eventLog ++ [ev] }, newMsgId)

/-- Claim C5: a successful enqueue on a non-archived session yields a
messageId identifying exactly one message row (status pending or
processing) carrying the prompt content, a `user_message` event whose data
carries that messageId and content, and a participant row for the author,
created with role `member` when the author was previously unknown. -/
theorem C5_enqueue_round_trip (st : SessionState) (content authorId source : String)
    (re : Option String) (newMsgId newParticipantId newEventId : String) (now : Nat)
    (harch : st.sessionStatus ≠ "archived")
    (hfresh : ∀ m ∈ st.messages, m.id ≠ newMsgId) :
    ∃ st2 : SessionState,
      enqueuePrompt st content authorId source re newMsgId newParticipantId
        newEventId now = .ok (st2, newMsgId) ∧
      (st2.messages.filter (fun m => m.id == newMsgId)).length = 1 ∧
      (∀ m ∈ st2.messages, m.id = newMsgId →
        (m.status = .pending ∨ m.status = .processing) ∧ m.content = content) ∧
      (∃ ev ∈ st2.eventLog, ev.type = "user_message" ∧
        ev.dataMessageId = some newMsgId ∧ ev.dataContent = some content) ∧
      (∃ p ∈ st2.participants, p.userId = authorId) ∧
      ((∀ q ∈ st.participants, q.userId ≠ authorId) →
        ∃ p ∈ st2.participants, p.userId = authorId ∧ p.role = "member") := by
  refine ⟨{ st with
      participants := if st.participants.any (fun p => p.userId == authorId)
        then st.participants
        else st.participants ++
          [⟨newParticipantId, authorId, "member", now, none, none, none, none⟩]
      messages := st.messages ++ [⟨newMsgId, authorId, content, source, .pending,
        now, none, none, storeEffort st.model re⟩]
      eventLog := st.eventLog ++ [⟨newEventId, "user_message", some content,
        some newMsgId, some newMsgId, now⟩] }, ?_, ?_, ?_, ?_, ?_, ?_⟩
  · unfold enqueuePrompt
    rw [if_neg harch]
  · simp only [List.filter_append]
    rw [List.filter_eq_nil_iff.mpr (by
      intro m hm
      simpa using hfresh m hm)]
    simp
  · intro m hm hid
    rcases List.mem_append.mp hm with h | h
    · exact absurd hid (hfresh m h)
    · simp at h
      subst h
      exact ⟨Or.inl rfl, rfl⟩
  · refine ⟨⟨newEventId, "user_message", some content, some newMsgId, some newMsgId, now⟩, ?_, rfl, rfl, rfl⟩
    simp
  · by_cases hex : st.participants.any (fun p => p.userId == authorId)
    · rcases List.any_eq_true.mp hex with ⟨p, hp, hpe⟩
      refine ⟨p, ?_, by simpa using hpe⟩
      simp only []
      rw [if_pos hex]
      exact hp
    · refine ⟨⟨newParticipantId, authorId, "member", now, none, none, none, none⟩, ?_, rfl⟩
      simp only []
      rw [if_neg hex]
      simp
  · intro hunk
    have hex : ¬ st.participants.any (fun p => p.userId == authorId) = true := by
      intro hcontra
      rcases List.any_eq_true.mp hcontra with ⟨p, hp, hpe⟩
      exact hunk p hp (by simpa using hpe)
    refine ⟨⟨newParticipantId, authorId, "member", now, none, none, none, none⟩, ?_, rfl, rfl⟩
    simp only []
    rw [if_neg hex]
    simp

/-- A session state as produced by the test helper `initSession`. -/
def sampleSession : SessionState :=
  initSession (some "claude-sonnet-4-5") none "user-1" "p-owner" 50

/-- Witness for claim C5: enqueueing a concrete prompt from a new author. -/
theorem C5_enqueue_round_trip_witness :
    ∃ st2 : SessionState,
      enqueuePrompt sampleSession "Fix the login bug" "user-2" "web" none
        "msg-1" "p-2" "evt-1" 60 = .ok (st2, "msg-1") ∧
      (st2.messages.filter (fun m => m.id == "msg-1")).length = 1 ∧
      (∃ p ∈ st2.participants, p.userId = "user-2" ∧ p.role = "member") := by
  have h := C5_enqueue_round_trip sampleSession "Fix the login bug" "user-2" "web"
    none "msg-1" "p-2" "evt-1" 60 (by decide) (by intro m hm; cases hm)
  rcases h with ⟨st2, h1, h2, _, _, _, h6⟩
  exact ⟨st2, h1, h2, h6 (by decide)⟩

/-- Claim C6: a reasoning effort that is invalid for the model (for example
`turbo` or `invalid` under every model) is stored as null on both the
session row (at init) and the message row (at enqueue), and both operations
still succeed. -/
theorem C6_invalid_effort_dropped (model effort : String)
    (hinvalid : isValidReasoningEffort model effort = false) :
    storeEffort model (some effort) = none ∧
    (∀ m : String, isValidReasoningEffort m "turbo" = false ∧
      isValidReasoningEffort m "invalid" = false) ∧
    (∀ (userId pid : String) (now : Nat),
      isValidReasoningEffort (getValidModelOrDefault (some model)) effort = false →
      (initSession (some model) (some effort) userId pid now).sessionReasoningEffort
        = none) ∧
    (∀ (st : SessionState) (content authorId source mid pid eid : String) (now : Nat),
      st.model = model → st.sessionStatus ≠ "archived" →
      ∃ st2 : SessionState,
        enqueuePrompt st content authorId source (some effort) mid pid eid now
          = .ok (st2, mid) ∧
        ∃ m : MessageRow, st2.messages.getLast? = some m ∧
          m.id = mid ∧ m.reasoningEffort = none) := by
  refine ⟨?_, ?_, ?_, ?_⟩
  · simp [storeEffort, hinvalid]
  · intro m
    have hgen : ∀ e : String, e ≠ "high" → e ≠ "max" →
        isValidReasoningEffort m e = false := by
      intro e h1 h2
      unfold isValidReasoningEffort getReasoningConfig MODEL_REASONING_CONFIG
      by_cases hm : isValidModel m = true
      · rw [if_pos hm]
        by_cases m1 : m = "claude-haiku-4-5"
        · simp [m1, h1, h2]
        · by_cases m2 : m = "claude-sonnet-4-5"
          · simp [m1, m2, h1, h2]
          · by_cases m3 : m = "claude-opus-4-5"
            · simp [m1, m2, m3, h1, h2]
            · simp [m1, m2, m3]
      · rw [if_neg hm]
    exact ⟨hgen "turbo" (by decide) (by decide), hgen "invalid" (by decide) (by decide)⟩
  · intro userId pid now hvm
    simp [initSession, storeEffort, hvm]
  · intro st content authorId source mid pid eid now hmodel harch
    refine ⟨{ st with
        participants := if st.participants.any (fun p => p.userId == authorId)
          then st.participants
          else st.participants ++
            [⟨pid, authorId, "member", now, none, none, none, none⟩]
        messages := st.messages ++ [⟨mid, authorId, content, source, .pending,
          now, none, none, storeEffort st.model (some effort)⟩]
        eventLog := st.eventLog ++ [⟨eid, "user_message", some content,
          some mid, some mid, now⟩] }, ?_, ?_⟩
    · unfold enqueuePrompt
      rw [if_neg harch]
    · refine ⟨⟨mid, authorId, content, source, .pending, now, none, none,
        storeEffort st.model (some effort)⟩, ?_, rfl, ?_⟩
      · simp
      · simp [storeEffort, hmodel, hinvalid]

/-- Witness for claim C6 at model claude-sonnet-4-5 and effort turbo. -/
theorem C6_invalid_effort_dropped_witness :
    storeEffort "claude-sonnet-4-5" (some "turbo") = none ∧
    (initSession (some "claude-sonnet-4-5") (some "turbo") "user-1" "p-owner" 50
      ).sessionReasoningEffort = none := by
  have h := C6_invalid_effort_dropped "claude-sonnet-4-5" "turbo" (by decide)
  exact ⟨h.1, h.2.2.1 "user-1" "p-owner" 50 (by decide)⟩

/-- Lowercase hexadecimal digits. -/
def hexChars : List Char := "0123456789abcdef".data

/-- Hex digit of a value taken modulo 16. -/
def toHexDigit (n : Nat) : Char := Nat.digitChar (n % 16)

/-- Two hex characters encoding one byte. -/
def byteHexChars (b : Nat) : List Char := [toHexDigit (b / 16), toHexDigit b]

/-- Modelled from the spec: a deterministic 32-byte digest of a string,
standing in for the cryptographic hash; the spec fixes only the shape of the
stored value (a 32-byte hash rendered as a 64-character hex digest). -/
def digestBytes (s : String) : List Nat :=
  (List.range 32).map (fun i =>
    s.data.foldl (fun acc c => (acc * 31 + c.toNat + 17 * i + 1) % 256)
      ((i * 7 + 13) % 256))

/-- The stored `ws_auth_token` value: the hex rendering of the digest. -/
def hashTokenHex (s : String) : String :=
  String.mk (((digestBytes s).map byteHexChars).flatten)

/-- Modelled from the spec: the freshly generated raw subscriber token. The
spec does not fix its format; it is modelled as a UUID-style 36-character
string over 16 random bytes, the generator the repository's client uses for
its ids. -/
def rawWsToken (bytes : List Nat) : String :=
  String.mk
    (byteHexChars (bytes.getD 0 0) ++ byteHexChars (bytes.getD 1 0) ++
     byteHexChars (bytes.getD 2 0) ++ byteHexChars (bytes.getD 3 0) ++ ['-'] ++
     byteHexChars (bytes.getD 4 0) ++ byteHexChars (bytes.getD 5 0) ++ ['-'] ++
     byteHexChars (bytes.getD 6 0) ++ byteHexChars (bytes.getD 7 0) ++ ['-'] ++
     byteHexChars (bytes.getD 8 0) ++ byteHexChars (bytes.getD 9 0) ++ ['-'] ++
     byteHexChars (bytes.getD 10 0) ++ byteHexChars (bytes.getD 11 0) ++
     byteHexChars (bytes.getD 12 0) ++ byteHexChars (bytes.getD 13 0) ++
     byteHexChars (bytes.getD 14 0) ++ byteHexChars (bytes.getD 15 0))

/-- Modelled from the spec: `issueWsToken` generates a fresh token, stores
only its hash (with the creation time) on the author's participant row —
creating a `member` row for an unknown userId — updates GitHub metadata
when provided, and returns the raw token with the participant id. -/
def issueWsToken (st : SessionState) (userId : String)
    (githubLogin githubName : Option String) (randomBytes : List Nat)
    (newParticipantId : String) (now : Nat) : SessionState × String × String :=
  let token := rawWsToken randomBytes
  let hash := hashTokenHex token
  if st.participants.any (fun p => p.userId == userId) then
    ({ st with participants := st.participants.map (fun p =>
        if p.userId == userId then
          { p with
              wsAuthToken := some hash
              wsTokenCreatedAt := some now
              githubLogin := githubLogin.orElse (fun _ => p.githubLogin)
              githubName := githubName.orElse (fun _ => p.githubName) }
        else p) },
     token,
     ((st.participants.find? (fun p => p.userId == userId)).map (fun p => p.id)).getD "")
  else
    ({ st with participants := st.participants ++
        [⟨newParticipantId, userId, "member", now, some hash, some now,
          githubLogin, githubName⟩] },
     token, newParticipantId)

theorem byteHexChars_length (b : Nat) : (byteHexChars b).length = 2 := rfl

theorem hashTokenHex_length (s : String) : (hashTokenHex s).length = 64 := by
  have hlen : ∀ bs : List Nat, ((bs.map byteHexChars).flatten).length = 2 * bs.length := by
    intro bs
    induction bs with
    | nil => rfl
    | cons b t ih =>
        simp only [List.map_cons, List.flatten_cons, List.length_append, ih,
          byteHexChars_length, List.length_cons]
        omega
  show (String.mk (((digestBytes s).map byteHexChars).flatten)).length = 64
  rw [String.length_mk, hlen]
  simp [digestBytes]

theorem rawWsToken_length (bytes : List Nat) : (rawWsToken bytes).length = 36 := by
  show (String.mk _).length = 36
  rw [String.length_mk]
  simp [byteHexChars]

theorem toHexDigit_mem (n : Nat) : toHexDigit n ∈ hexChars := by
  unfold toHexDigit
  have h : n % 16 < 16 := Nat.mod_lt _ (by decide)
  set k := n % 16 with hk
  interval_cases k <;> decide

theorem hashTokenHex_hex (s : String) : ∀ c ∈ (hashTokenHex s).data, c ∈ hexChars := by
  intro c hc
  have hc' : c ∈ ((digestBytes s).map byteHexChars).flatten := hc
  rcases List.mem_flatten.mp hc' with ⟨l, hl, hcl⟩
  rcases List.mem_map.mp hl with ⟨b, _, rfl⟩
  rcases hcl with _ | ⟨_, h2⟩
  · exact toHexDigit_mem _
  · rcases h2 with _ | ⟨_, h3⟩
    · exact toHexDigit_mem _
    · cases h3

theorem hash_ne_raw (s : String) (bytes : List Nat) :
    hashTokenHex s ≠ rawWsToken bytes := by
  intro h
  have := congrArg String.length h
  rw [hashTokenHex_length, rawWsToken_length] at this
  exact absurd this (by decide)

theorem C7_ws_token_hash (st : SessionState) (userId : String)
    (gl gn : Option String) (bytes : List Nat) (pid : String) (now : Nat)
    (st2 : SessionState) (token pid2 : String)
    (hres : issueWsToken st userId gl gn bytes pid now = (st2, token, pid2)) :
    token ≠ "" ∧
    (∃ p ∈ st2.participants, p.userId = userId ∧
      p.wsAuthToken = some (hashTokenHex token) ∧
      (hashTokenHex token).length = 64 ∧
      (∀ c ∈ (hashTokenHex token).data, c ∈ hexChars)) ∧
    (∀ bytes2 : List Nat, hashTokenHex token ≠ rawWsToken bytes2) ∧
    ((∀ p ∈ st.participants, ∀ h : String, p.wsAuthToken = some h → h.length = 64) →
      ∀ p ∈ st2.participants, ∀ h : String, p.wsAuthToken = some h → h.length = 64) := by
  have htok : token = rawWsToken bytes := by
    unfold issueWsToken at hres
    split at hres <;> simp at hres <;> exact hres.2.1.symm
  have hst2 : st2 = (issueWsToken st userId gl gn bytes pid now).1 := by
    rw [hres]
  have hupd : ∀ p0 : ParticipantRow, (p0.userId == userId) = true →
      (fun p => if p.userId == userId then
        { p with
            wsAuthToken := some (hashTokenHex (rawWsToken bytes))
            wsTokenCreatedAt := some now
            githubLogin := gl.orElse (fun _ => p.githubLogin)
            githubName := gn.orElse (fun _ => p.githubName) }
        else p) p0
      = { p0 with
            wsAuthToken := some (hashTokenHex (rawWsToken bytes))
            wsTokenCreatedAt := some now
            githubLogin := gl.orElse (fun _ => p0.githubLogin)
            githubName := gn.orElse (fun _ => p0.githubName) } := by
    intro p0 hpe
    simp only [hpe, if_true]
  refine ⟨?_, ?_, ?_, ?_⟩
  · rw [htok]
    intro h
    have := congrArg String.length h
    rw [rawWsToken_length] at this
    exact absurd this (by decide)
  · rw [hst2, htok]
    by_cases hex : (st.participants.any fun p => p.userId == userId) = true
    · have hpart : (issueWsToken st userId gl gn bytes pid now).1.participants
          = st.participants.map (fun p => if p.userId == userId then
              { p with
                  wsAuthToken := some (hashTokenHex (rawWsToken bytes))
                  wsTokenCreatedAt := some now
                  githubLogin := gl.orElse (fun _ => p.githubLogin)
                  githubName := gn.orElse (fun _ => p.githubName) }
              else p) := by
        simp only [issueWsToken]
        rw [if_pos hex]
      rcases List.any_eq_true.mp hex with ⟨p0, hp0, hpe⟩
      rw [hpart]
      refine ⟨{ p0 with
          wsAuthToken := some (hashTokenHex (rawWsToken bytes))
          wsTokenCreatedAt := some now
          githubLogin := gl.orElse (fun _ => p0.githubLogin)
          githubName := gn.orElse (fun _ => p0.githubName) }, ?_, ?_, rfl,
        hashTokenHex_length _, hashTokenHex_hex _⟩
      · exact List.mem_map.mpr ⟨p0, hp0, hupd p0 hpe⟩
      · simpa using hpe
    · have hpart : (issueWsToken st userId gl gn bytes pid now).1.participants
          = st.participants ++
            [⟨pid, userId, "member", now, some (hashTokenHex (rawWsToken bytes)),
              some now, gl, gn⟩] := by
        simp only [issueWsToken]
        rw [if_neg hex]
      rw [hpart]
      refine ⟨⟨pid, userId, "member", now,
        some (hashTokenHex (rawWsToken bytes)), some now, gl, gn⟩, ?_, rfl, rfl,
        hashTokenHex_length _, hashTokenHex_hex _⟩
      simp
  · intro bytes2
    exact hash_ne_raw token bytes2
  · intro hold
    rw [hst2]
    by_cases hex : (st.participants.any fun p => p.userId == userId) = true
    · have hpart : (issueWsToken st userId gl gn bytes pid now).1.participants
          = st.participants.map (fun p => if p.userId == userId then
              { p with
                  wsAuthToken := some (hashTokenHex (rawWsToken bytes))
                  wsTokenCreatedAt := some now
                  githubLogin := gl.orElse (fun _ => p.githubLogin)
                  githubName := gn.orElse (fun _ => p.githubName) }
              else p) := by
        simp only [issueWsToken]
        rw [if_pos hex]
      rw [hpart]
      intro p hp h hph
      rcases List.mem_map.mp hp with ⟨p0, hp0, hf⟩
      by_cases hpe : (p0.userId == userId) = true
      · rw [if_pos hpe] at hf
        rw [← hf] at hph
        have h2 : hashTokenHex (rawWsToken bytes) = h := Option.some_inj.mp hph
        rw [← h2]
        exact hashTokenHex_length _
      · rw [if_neg hpe] at hf
        exact hold p0 hp0 h (by rw [hf]; exact hph)
    · have hpart : (issueWsToken st userId gl gn bytes pid now).1.participants
          = st.participants ++
            [⟨pid, userId, "member", now, some (hashTokenHex (rawWsToken bytes)),
              some now, gl, gn⟩] := by
        simp only [issueWsToken]
        rw [if_neg hex]
      rw [hpart]
      intro p hp h hph
      rcases List.mem_append.mp hp with hmem | hmem
      · exact hold p hmem h hph
      · simp at hmem
        subst hmem
        simp at hph
        rw [← hph]
        exact hashTokenHex_length _

/-- Witness for claim C7: issuing a token over the sample session. -/
theorem C7_ws_token_hash_witness :
    (issueWsToken sampleSession "user-1" none none (List.range 16) "p-2" 60).2.1 ≠ "" ∧
    (∀ bytes2 : List Nat,
      hashTokenHex ((issueWsToken sampleSession "user-1" none none
        (List.range 16) "p-2" 60).2.1) ≠ rawWsToken bytes2) := by
  have h := C7_ws_token_hash sampleSession "user-1" none none (List.range 16)
    "p-2" 60
    (issueWsToken sampleSession "user-1" none none (List.range 16) "p-2" 60).1
    (issueWsToken sampleSession "user-1" none none (List.range 16) "p-2" 60).2.1
    (issueWsToken sampleSession "user-1" none none (List.range 16) "p-2" 60).2.2
    rfl
  exact ⟨h.1, h.2.2.1⟩

/-- A sandbox event as consumed by the web client rendering pipeline. The
deduplication loop reads only `type`, `callId` and `messageId`; `id` stands
in for the rest of the payload so that distinct records stay distinct. -/
structure RenderEvent where
  id : String
  type : String
  callId : Option String
  messageId : Option String
deriving Repr, DecidableEq

/-- Truthiness of an optional string field, as JavaScript evaluates it: an
absent field and the empty string are falsy. -/
def optTruthy : Option String → Bool
  | none => false
  | some s => s != ""

/-- Lookup in an insertion map; prepend-plus-first-match realizes the
get/set behaviour of the JavaScript Map the component uses. -/
def mapGet (m : List (String × Nat)) (k : String) : Option Nat :=
  (m.find? (fun kv => kv.1 == k)).map (fun kv => kv.2)

/-- Overwriting insert of the JavaScript Map, realized by prepending. -/
def mapSet (m : List (String × Nat)) (k : String) (v : Nat) : List (String × Nat) :=
  (k, v) :: m

/-- State of the deduplication pass over the event list: the output buffer
(`null` holes are later dropped by `filter(Boolean)`), the first-position
map for tool_calls, the seen set for completions, and the latest-position
map for tokens. -/
structure DedupState where
  buf : List (Option RenderEvent)
  seenToolCalls : List (String × Nat)
  seenCompletions : List String
  seenTokens : List (String × Nat)
deriving Repr, DecidableEq

def dedupInit : DedupState := ⟨[], [], [], []⟩

/-- One iteration of the `groupedEvents` deduplication loop of the session
page: a `tool_call` with an already-seen callId replaces the record at the
first occurrence's buffer position; a repeated `execution_complete` for a
messageId is skipped; a `token` for an already-seen messageId nulls the
previous buffer slot and appends the new record at the end; everything else
is appended as-is. -/
def dedupStep (st : DedupState) (e : RenderEvent) : DedupState :=
  if e.type == "tool_call" && optTruthy e.callId then
    let c := e.callId.getD ""
    match mapGet st.seenToolCalls c with
    | some idx => { st with buf := st.buf.set idx (some e) }
    | none =>
        { st with
            seenToolCalls := mapSet st.seenToolCalls c st.buf.length
            buf := st.buf ++ [some e] }
  else if e.type == "execution_complete" && optTruthy e.messageId then
    let m := e.messageId.getD ""
    if st.seenCompletions.contains m then st
    else
      { st with
          seenCompletions := st.seenCompletions ++ [m]
          buf := st.buf ++ [some e] }
  else if e.type == "token" && optTruthy e.messageId then
    let m := e.messageId.getD ""
    let buf1 :=
      match mapGet st.seenTokens m with
      | some idx => st.buf.set idx none
      | none => st.buf
    { st with
        seenTokens := mapSet st.seenTokens m buf1.length
        buf := buf1 ++ [some e] }
  else { st with buf := st.buf ++ [some e] }

/-- The deduplicated event list handed to `groupEvents`:
`filteredEvents.filter(Boolean)`. -/
def dedupEvents (es : List RenderEvent) : List RenderEvent :=
  ((es.foldl dedupStep dedupInit).buf).filterMap id

/-- The tool_call record carrying a given callId. -/
def isTcFor (c : String) (e : RenderEvent) : Bool :=
  e.type == "tool_call" && e.callId == some c

/-- The token record carrying a given messageId. -/
def isTkFor (m : String) (e : RenderEvent) : Bool :=
  e.type == "token" && e.messageId == some m

/-- The last element of a list satisfying a predicate. -/
def lastMatch (p : RenderEvent → Bool) (l : List RenderEvent) : Option RenderEvent :=
  (l.filter p).getLast?

/-- Whether a buffer slot holds a record satisfying a predicate. -/
def entryIs (p : RenderEvent → Bool) (o : Option RenderEvent) : Bool :=
  match o with
  | some e => p e
  | none => false

/-- Relation between a position map entry, the last matching input record,
and the buffer: either the map points at the unique buffer slot holding that
record, or no matching record has been seen and none sits in the buffer. -/
def slotInv (p : RenderEvent → Bool) (entry : Option Nat)
    (lastE : Option RenderEvent) (buf : List (Option RenderEvent)) : Prop :=
  match entry, lastE with
  | some idx, some e =>
      buf.get? idx = some (some e) ∧ p e = true ∧
      ∀ j, j ≠ idx → ∀ e2, buf.get? j = some (some e2) → p e2 = false
  | none, none => ∀ o ∈ buf, entryIs p o = false
  | _, _ => False

/-- The full invariant of the deduplication pass after processing a prefix. -/
def dedupInv (pre : List RenderEvent) (st : DedupState) : Prop :=
  (∀ c : String, c ≠ "" →
    slotInv (isTcFor c) (mapGet st.seenToolCalls c) (lastMatch (isTcFor c) pre) st.buf) ∧
  (∀ m : String, m ≠ "" →
    slotInv (isTkFor m) (mapGet st.seenTokens m) (lastMatch (isTkFor m) pre) st.buf)

theorem get?_lt_of_eq_some {α : Type} {l : List α} {i : Nat} {a : α}
    (h : l.get? i = some a) : i < l.length := by
  by_contra hc
  rw [List.get?_eq_none.mpr (by omega)] at h
  cases h

theorem mapGet_set_eq (m : List (String × Nat)) (k : String) (v : Nat) :
    mapGet (mapSet m k v) k = some v := by
  simp [mapGet, mapSet, List.find?]

theorem mapGet_set_ne (m : List (String × Nat)) (k k2 : String) (v : Nat)
    (h : k2 ≠ k) : mapGet (mapSet m k v) k2 = mapGet m k2 := by
  simp only [mapGet, mapSet, List.find?]
  rw [show ((k, v).1 == k2) = false by simpa using fun hc => h hc.symm]

theorem lastMatch_append_pos (p : RenderEvent → Bool) (l : List RenderEvent)
    (e : RenderEvent) (he : p e = true) :
    lastMatch p (l ++ [e]) = some e := by
  unfold lastMatch
  rw [List.filter_append]
  simp [he, List.getLast?_concat]

theorem lastMatch_append_neg (p : RenderEvent → Bool) (l : List RenderEvent)
    (e : RenderEvent) (he : p e = false) :
    lastMatch p (l ++ [e]) = lastMatch p l := by
  unfold lastMatch
  rw [List.filter_append]
  simp [he]

theorem slotInv_append (p : RenderEvent → Bool) (entry : Option Nat)
    (lastE : Option RenderEvent) (buf : List (Option RenderEvent))
    (o : Option RenderEvent) (h : slotInv p entry lastE buf)
    (ho : entryIs p o = false) :
    slotInv p entry lastE (buf ++ [o]) := by
  cases entry with
  | some idx =>
      cases lastE with
      | some e =>
          obtain ⟨h1, h2, h3⟩ := h
          have hlt : idx < buf.length := get?_lt_of_eq_some h1
          refine ⟨by rw [List.get?_append hlt]; exact h1, h2, ?_⟩
          intro j hj e2 hje2
          by_cases hjlen : j < buf.length
          · rw [List.get?_append hjlen] at hje2
            exact h3 j hj e2 hje2
          · by_cases hjeq : j = buf.length
            · subst hjeq
              rw [List.get?_concat_length] at hje2
              have : o = some e2 := by injection hje2
              rw [this] at ho
              exact ho
            · rw [List.get?_eq_none.mpr (by simp; omega)] at hje2
              cases hje2
      | none => exact h.elim
  | none =>
      cases lastE with
      | some e => exact h.elim
      | none =>
          intro o2 ho2
          rcases List.mem_append.mp ho2 with hm | hm
          · exact h o2 hm
          · simp at hm
            subst hm
            exact ho

theorem slotInv_set (p : RenderEvent → Bool) (entry : Option Nat)
    (lastE : Option RenderEvent) (buf : List (Option RenderEvent))
    (i : Nat) (o2 : Option RenderEvent) (h : slotInv p entry lastE buf)
    (ho : entryIs p o2 = false)
    (hold : ∀ e2, buf.get? i = some (some e2) → p e2 = false) :
    slotInv p entry lastE (buf.set i o2) := by
  cases entry with
  | some idx =>
      cases lastE with
      | some e =>
          obtain ⟨h1, h2, h3⟩ := h
          have hne : idx ≠ i := by
            intro hc
            subst hc
            exact absurd h2 (by simp [hold e h1])
          refine ⟨by rw [List.get?_set_ne _ _ (Ne.symm hne)]; exact h1, h2, ?_⟩
          intro j hj e2 hje2
          by_cases hji : j = i
          · subst hji
            by_cases hjlen : j < buf.length
            · rw [List.get?_set_eq_of_lt _ hjlen] at hje2
              have : o2 = some e2 := by injection hje2
              rw [this] at ho
              exact ho
            · rw [List.set_eq_of_length_le (by omega)] at hje2
              exact hold e2 hje2
          · rw [List.get?_set_ne _ _ (Ne.symm hji)] at hje2
            exact h3 j hj e2 hje2
      | none => exact h.elim
  | none =>
      cases lastE with
      | some e => exact h.elim
      | none =>
          intro o3 ho3
          rcases List.mem_or_eq_of_mem_set ho3 with hm | hm
          · exact h o3 hm
          · subst hm
            exact ho

theorem slotInv_none_elim (p : RenderEvent → Bool) (last : Option RenderEvent)
    (buf : List (Option RenderEvent)) (h : slotInv p none last buf) :
    last = none ∧ ∀ o ∈ buf, entryIs p o = false := by
  cases last with
  | some e => exact h.elim
  | none => exact ⟨rfl, h⟩

theorem slotInv_some_elim (p : RenderEvent → Bool) (idx : Nat)
    (last : Option RenderEvent) (buf : List (Option RenderEvent))
    (h : slotInv p (some idx) last buf) :
    ∃ eold, last = some eold ∧ buf.get? idx = some (some eold) ∧ p eold = true ∧
      ∀ j, j ≠ idx → ∀ e2, buf.get? j = some (some e2) → p e2 = false := by
  cases last with
  | none => exact h.elim
  | some eold => exact ⟨eold, rfl, h.1, h.2.1, h.2.2⟩

theorem slotInv_passthrough (p : RenderEvent → Bool) (entry : Option Nat)
    (pre : List RenderEvent) (buf : List (Option RenderEvent)) (e : RenderEvent)
    (hp : p e = false) (h : slotInv p entry (lastMatch p pre) buf) :
    slotInv p entry (lastMatch p (pre ++ [e])) (buf ++ [some e]) := by
  rw [lastMatch_append_neg p pre e hp]
  exact slotInv_append p entry _ buf (some e) h (by simp [entryIs, hp])

theorem slotInv_skip (p : RenderEvent → Bool) (entry : Option Nat)
    (pre : List RenderEvent) (buf : List (Option RenderEvent)) (e : RenderEvent)
    (hp : p e = false) (h : slotInv p entry (lastMatch p pre) buf) :
    slotInv p entry (lastMatch p (pre ++ [e])) buf := by
  rw [lastMatch_append_neg p pre e hp]
  exact h

theorem slotInv_set_append (p : RenderEvent → Bool) (entry : Option Nat)
    (pre : List RenderEvent) (buf : List (Option RenderEvent)) (e : RenderEvent)
    (i : Nat) (o2 : Option RenderEvent) (hp : p e = false)
    (ho : entryIs p o2 = false)
    (hold : ∀ e2, buf.get? i = some (some e2) → p e2 = false)
    (h : slotInv p entry (lastMatch p pre) buf) :
    slotInv p entry (lastMatch p (pre ++ [e])) ((buf.set i o2) ++ [some e]) := by
  rw [lastMatch_append_neg p pre e hp]
  exact slotInv_append p entry _ _ (some e)
    (slotInv_set p entry _ buf i o2 h ho hold) (by simp [entryIs, hp])

theorem slotInv_fresh (p : RenderEvent → Bool) (pre : List RenderEvent)
    (buf : List (Option RenderEvent)) (e : RenderEvent) (hp : p e = true)
    (hnone : ∀ o ∈ buf, entryIs p o = false) :
    slotInv p (some buf.length) (lastMatch p (pre ++ [e])) (buf ++ [some e]) := by
  rw [lastMatch_append_pos p pre e hp]
  refine ⟨List.get?_concat_length _ _, hp, ?_⟩
  intro j hj e2 hje2
  by_cases hjl : j < buf.length
  · rw [List.get?_append hjl] at hje2
    have := hnone (some e2) (List.get?_mem hje2)
    simpa [entryIs] using this
  · rw [List.get?_eq_none.mpr (by simp; omega)] at hje2
    cases hje2

theorem slotInv_replace (p : RenderEvent → Bool) (idx : Nat)
    (pre : List RenderEvent) (buf : List (Option RenderEvent)) (e : RenderEvent)
    (eold : RenderEvent) (hp : p e = true)
    (h1 : buf.get? idx = some (some eold))
    (h3 : ∀ j, j ≠ idx → ∀ e2, buf.get? j = some (some e2) → p e2 = false) :
    slotInv p (some idx) (lastMatch p (pre ++ [e])) (buf.set idx (some e)) := by
  rw [lastMatch_append_pos p pre e hp]
  have hlt := get?_lt_of_eq_some h1
  refine ⟨by rw [List.get?_set_eq_of_lt _ hlt], hp, ?_⟩
  intro j hj e2 hje2
  rw [List.get?_set_ne _ _ (Ne.symm hj)] at hje2
  exact h3 j hj e2 hje2

theorem slotInv_move_to_end (p : RenderEvent → Bool) (idx : Nat)
    (pre : List RenderEvent) (buf : List (Option RenderEvent)) (e : RenderEvent)
    (eold : RenderEvent) (hp : p e = true)
    (h1 : buf.get? idx = some (some eold))
    (h3 : ∀ j, j ≠ idx → ∀ e2, buf.get? j = some (some e2) → p e2 = false) :
    slotInv p (some ((buf.set idx none).length)) (lastMatch p (pre ++ [e]))
      ((buf.set idx none) ++ [some e]) := by
  rw [lastMatch_append_pos p pre e hp]
  have hlt := get?_lt_of_eq_some h1
  have hlen : (buf.set idx none).length = buf.length := List.length_set buf idx none
  refine ⟨List.get?_concat_length _ _, hp, ?_⟩
  intro j hj e2 hje2
  by_cases hjl : j < (buf.set idx none).length
  · rw [List.get?_append hjl] at hje2
    by_cases hji : j = idx
    · subst hji
      rw [List.get?_set_eq_of_lt _ (by omega)] at hje2
      simp at hje2
    · rw [List.get?_set_ne _ _ (Ne.symm hji)] at hje2
      exact h3 j hji e2 hje2
  · rw [List.get?_eq_none.mpr (by simp; omega)] at hje2
    cases hje2

theorem isTcFor_type_ne (c : String) (e : RenderEvent) (h : e.type ≠ "tool_call") :
    isTcFor c e = false := by
  simp [isTcFor, h]

theorem isTkFor_type_ne (m : String) (e : RenderEvent) (h : e.type ≠ "token") :
    isTkFor m e = false := by
  simp [isTkFor, h]

theorem isTcFor_callId_ne (c c0 : String) (e : RenderEvent)
    (hcid : e.callId = some c0) (h : c ≠ c0) : isTcFor c e = false := by
  simp [isTcFor, hcid, Ne.symm h]

theorem isTkFor_mid_ne (m m0 : String) (e : RenderEvent)
    (hmid : e.messageId = some m0) (h : m ≠ m0) : isTkFor m e = false := by
  simp [isTkFor, hmid, Ne.symm h]

theorem dedupStep_tc_seen (st : DedupState) (e : RenderEvent) (c0 : String)
    (idx : Nat) (het : e.type = "tool_call") (hcid : e.callId = some c0)
    (hc0 : c0 ≠ "") (hseen : mapGet st.seenToolCalls c0 = some idx) :
    dedupStep st e = { st with buf := st.buf.set idx (some e) } := by
  unfold dedupStep
  rw [if_pos (by simp [het, hcid, optTruthy, hc0])]
  simp only [hcid, Option.getD_some, hseen]

theorem dedupStep_tc_new (st : DedupState) (e : RenderEvent) (c0 : String)
    (het : e.type = "tool_call") (hcid : e.callId = some c0) (hc0 : c0 ≠ "")
    (hseen : mapGet st.seenToolCalls c0 = none) :
    dedupStep st e = { st with
      seenToolCalls := mapSet st.seenToolCalls c0 st.buf.length
      buf := st.buf ++ [some e] } := by
  unfold dedupStep
  rw [if_pos (by simp [het, hcid, optTruthy, hc0])]
  simp only [hcid, Option.getD_some, hseen]

theorem dedupStep_ec_seen (st : DedupState) (e : RenderEvent) (m0 : String)
    (het : e.type = "execution_complete") (hmid : e.messageId = some m0)
    (hm0 : m0 ≠ "") (hseen : st.seenCompletions.contains m0 = true) :
    dedupStep st e = st := by
  unfold dedupStep
  rw [if_neg (by simp [het]), if_pos (by simp [het, hmid, optTruthy, hm0])]
  simp only [hmid, Option.getD_some, hseen, if_true]

theorem dedupStep_ec_new (st : DedupState) (e : RenderEvent) (m0 : String)
    (het : e.type = "execution_complete") (hmid : e.messageId = some m0)
    (hm0 : m0 ≠ "") (hseen : st.seenCompletions.contains m0 = false) :
    dedupStep st e = { st with
      seenCompletions := st.seenCompletions ++ [m0]
      buf := st.buf ++ [some e] } := by
  unfold dedupStep
  rw [if_neg (by simp [het]), if_pos (by simp [het, hmid, optTruthy, hm0])]
  simp only [hmid, Option.getD_some, hseen]
  rfl

theorem dedupStep_tk_seen (st : DedupState) (e : RenderEvent) (m0 : String)
    (idx : Nat) (het : e.type = "token") (hmid : e.messageId = some m0)
    (hm0 : m0 ≠ "") (hseen : mapGet st.seenTokens m0 = some idx) :
    dedupStep st e = { st with
      seenTokens := mapSet st.seenTokens m0 (st.buf.set idx none).length
      buf := (st.buf.set idx none) ++ [some e] } := by
  unfold dedupStep
  rw [if_neg (by simp [het]), if_neg (by simp [het]),
    if_pos (by simp [het, hmid, optTruthy, hm0])]
  simp only [hmid, Option.getD_some, hseen]

theorem dedupStep_tk_new (st : DedupState) (e : RenderEvent) (m0 : String)
    (het : e.type = "token") (hmid : e.messageId = some m0) (hm0 : m0 ≠ "")
    (hseen : mapGet st.seenTokens m0 = none) :
    dedupStep st e = { st with
      seenTokens := mapSet st.seenTokens m0 st.buf.length
      buf := st.buf ++ [some e] } := by
  unfold dedupStep
  rw [if_neg (by simp [het]), if_neg (by simp [het]),
    if_pos (by simp [het, hmid, optTruthy, hm0])]
  simp only [hmid, Option.getD_some, hseen]

theorem dedupStep_other (st : DedupState) (e : RenderEvent)
    (h1 : (e.type == "tool_call" && optTruthy e.callId) = false)
    (h2 : (e.type == "execution_complete" && optTruthy e.messageId) = false)
    (h3 : (e.type == "token" && optTruthy e.messageId) = false) :
    dedupStep st e = { st with buf := st.buf ++ [some e] } := by
  unfold dedupStep
  rw [if_neg (by simp [h1]), if_neg (by simp [h2]), if_neg (by simp [h3])]

theorem band_true_split {a b : Bool} (h : (a && b) = true) :
    a = true ∧ b = true := by
  rw [Bool.and_eq_true] at h
  exact h

theorem band_true_intro {a b : Bool} (h1 : a = true) (h2 : b = true) :
    (a && b) = true := by
  rw [Bool.and_eq_true]
  exact ⟨h1, h2⟩

theorem hold_of_get (buf : List (Option RenderEvent)) (idx : Nat)
    (eold : RenderEvent) (hbuf : buf.get? idx = some (some eold))
    (q : RenderEvent → Bool) (hq : q eold = false) :
    ∀ e2, buf.get? idx = some (some e2) → q e2 = false := by
  intro e2 he2
  rw [hbuf] at he2
  have h1 : some eold = some e2 := by injection he2
  have h2 : eold = e2 := by injection h1
  rw [← h2]
  exact hq

theorem dedupStep_inv (pre : List RenderEvent) (st : DedupState) (e : RenderEvent)
    (h : dedupInv pre st) : dedupInv (pre ++ [e]) (dedupStep st e) := by
  obtain ⟨htc, htk⟩ := h
  by_cases hb1 : (e.type == "tool_call" && optTruthy e.callId) = true
  · have het : e.type = "tool_call" := by
      simpa using (band_true_split hb1).1
    obtain ⟨c0, hcid, hc0⟩ : ∃ c0, e.callId = some c0 ∧ c0 ≠ "" := by
      have h2 := (band_true_split hb1).2
      cases hcid : e.callId with
      | none => rw [hcid] at h2; simp [optTruthy] at h2
      | some c0 =>
          rw [hcid] at h2
          exact ⟨c0, rfl, by simpa [optTruthy] using h2⟩
    have hpe : isTcFor c0 e = true := by simp [isTcFor, het, hcid]
    rcases hseen : mapGet st.seenToolCalls c0 with _ | idx
    · rw [dedupStep_tc_new st e c0 het hcid hc0 hseen]
      unfold dedupInv
      dsimp only
      refine ⟨?_, ?_⟩
      · intro c hc
        by_cases hcc : c = c0
        · subst hcc
          rw [mapGet_set_eq]
          have hold := htc c hc
          rw [hseen] at hold
          obtain ⟨_, hallfail⟩ := slotInv_none_elim _ _ _ hold
          exact slotInv_fresh _ pre st.buf e hpe hallfail
        · rw [mapGet_set_ne _ _ _ _ hcc]
          exact slotInv_passthrough _ _ pre st.buf e
            (isTcFor_callId_ne c c0 e hcid hcc) (htc c hc)
      · intro m hm
        exact slotInv_passthrough _ _ pre st.buf e
          (isTkFor_type_ne m e (by simp [het])) (htk m hm)
    · rw [dedupStep_tc_seen st e c0 idx het hcid hc0 hseen]
      have hold := htc c0 hc0
      rw [hseen] at hold
      obtain ⟨eold, hlast, hbuf, hpeold, hothers⟩ := slotInv_some_elim _ _ _ _ hold
      have heteold : eold.type = "tool_call" := by
        simpa using (band_true_split hpeold).1
      have hcideold : eold.callId = some c0 := by
        simpa using (band_true_split hpeold).2
      unfold dedupInv
      dsimp only
      refine ⟨?_, ?_⟩
      · intro c hc
        by_cases hcc : c = c0
        · subst hcc
          rw [hseen]
          exact slotInv_replace _ idx pre st.buf e eold hpe hbuf hothers
        · have heq : isTcFor c e = false := isTcFor_callId_ne c c0 e hcid hcc
          rw [lastMatch_append_neg _ pre e heq]
          exact slotInv_set _ _ _ st.buf idx (some e) (htc c hc)
            (by simp [entryIs, heq])
            (hold_of_get st.buf idx eold hbuf _
              (isTcFor_callId_ne c c0 eold hcideold hcc))
      · intro m hm
        have heq : isTkFor m e = false := isTkFor_type_ne m e (by simp [het])
        rw [lastMatch_append_neg _ pre e heq]
        exact slotInv_set _ _ _ st.buf idx (some e) (htk m hm)
          (by simp [entryIs, heq])
          (hold_of_get st.buf idx eold hbuf _
            (isTkFor_type_ne m eold (by simp [heteold])))
  · by_cases hb2 : (e.type == "execution_complete" && optTruthy e.messageId) = true
    · have het : e.type = "execution_complete" := by
        simpa using (band_true_split hb2).1
      obtain ⟨m0, hmid, hm0⟩ : ∃ m0, e.messageId = some m0 ∧ m0 ≠ "" := by
        have h2 := (band_true_split hb2).2
        cases hmid : e.messageId with
        | none => rw [hmid] at h2; simp [optTruthy] at h2
        | some m0 =>
            rw [hmid] at h2
            exact ⟨m0, rfl, by simpa [optTruthy] using h2⟩
      have htcf : ∀ c, isTcFor c e = false :=
        fun c => isTcFor_type_ne c e (by simp [het])
      have htkf : ∀ m, isTkFor m e = false :=
        fun m => isTkFor_type_ne m e (by simp [het])
      by_cases hseen : st.seenCompletions.contains m0 = true
      · rw [dedupStep_ec_seen st e m0 het hmid hm0 hseen]
        exact ⟨fun c hc => slotInv_skip _ _ pre st.buf e (htcf c) (htc c hc),
               fun m hm => slotInv_skip _ _ pre st.buf e (htkf m) (htk m hm)⟩
      · rw [dedupStep_ec_new st e m0 het hmid hm0 (by simpa using hseen)]
        unfold dedupInv
        dsimp only
        exact ⟨fun c hc => slotInv_passthrough _ _ pre st.buf e (htcf c) (htc c hc),
               fun m hm => slotInv_passthrough _ _ pre st.buf e (htkf m) (htk m hm)⟩
    · by_cases hb3 : (e.type == "token" && optTruthy e.messageId) = true
      · have het : e.type = "token" := by
          simpa using (band_true_split hb3).1
        obtain ⟨m0, hmid, hm0⟩ : ∃ m0, e.messageId = some m0 ∧ m0 ≠ "" := by
          have h2 := (band_true_split hb3).2
          cases hmid : e.messageId with
          | none => rw [hmid] at h2; simp [optTruthy] at h2
          | some m0 =>
              rw [hmid] at h2
              exact ⟨m0, rfl, by simpa [optTruthy] using h2⟩
        have hpe : isTkFor m0 e = true := by simp [isTkFor, het, hmid]
        have htcf : ∀ c, isTcFor c e = false :=
          fun c => isTcFor_type_ne c e (by simp [het])
        rcases hseen : mapGet st.seenTokens m0 with _ | idx
        · rw [dedupStep_tk_new st e m0 het hmid hm0 hseen]
          unfold dedupInv
          dsimp only
          refine ⟨?_, ?_⟩
          · intro c hc
            exact slotInv_passthrough _ _ pre st.buf e (htcf c) (htc c hc)
          · intro m hm
            by_cases hmm : m = m0
            · subst hmm
              rw [mapGet_set_eq]
              have hold := htk m hm
              rw [hseen] at hold
              obtain ⟨_, hallfail⟩ := slotInv_none_elim _ _ _ hold
              exact slotInv_fresh _ pre st.buf e hpe hallfail
            · rw [mapGet_set_ne _ _ _ _ hmm]
              exact slotInv_passthrough _ _ pre st.buf e
                (isTkFor_mid_ne m m0 e hmid hmm) (htk m hm)
        · rw [dedupStep_tk_seen st e m0 idx het hmid hm0 hseen]
          have hold := htk m0 hm0
          rw [hseen] at hold
          obtain ⟨eold, hlast, hbuf, hpeold, hothers⟩ :=
            slotInv_some_elim _ _ _ _ hold
          have heteold : eold.type = "token" := by
            simpa using (band_true_split hpeold).1
          have hmideold : eold.messageId = some m0 := by
            simpa using (band_true_split hpeold).2
          unfold dedupInv
          dsimp only
          refine ⟨?_, ?_⟩
          · intro c hc
            exact slotInv_set_append _ _ pre st.buf e idx none (htcf c)
              (by simp [entryIs])
              (hold_of_get st.buf idx eold hbuf _
                (isTcFor_type_ne c eold (by simp [heteold])))
              (htc c hc)
          · intro m hm
            by_cases hmm : m = m0
            · subst hmm
              rw [mapGet_set_eq]
              exact slotInv_move_to_end _ idx pre st.buf e eold hpe hbuf hothers
            · rw [mapGet_set_ne _ _ _ _ hmm]
              exact slotInv_set_append _ _ pre st.buf e idx none
                (isTkFor_mid_ne m m0 e hmid hmm) (by simp [entryIs])
                (hold_of_get st.buf idx eold hbuf _
                  (isTkFor_mid_ne m m0 eold hmideold hmm))
                (htk m hm)
      · rw [dedupStep_other st e (by simpa using hb1) (by simpa using hb2)
          (by simpa using hb3)]
        have htcf : ∀ c, c ≠ "" → isTcFor c e = false := by
          intro c hc
          by_contra hcon
          rw [Bool.not_eq_false] at hcon
          have h1 := band_true_split hcon
          have hcid : e.callId = some c := by simpa using h1.2
          apply hb1
          refine band_true_intro h1.1 ?_
          rw [hcid]
          simpa [optTruthy] using hc
        have htkf : ∀ m, m ≠ "" → isTkFor m e = false := by
          intro m hm
          by_contra hcon
          rw [Bool.not_eq_false] at hcon
          have h1 := band_true_split hcon
          have hmid : e.messageId = some m := by simpa using h1.2
          apply hb3
          refine band_true_intro h1.1 ?_
          rw [hmid]
          simpa [optTruthy] using hm
        unfold dedupInv
        dsimp only
        exact ⟨fun c hc => slotInv_passthrough _ _ pre st.buf e (htcf c hc) (htc c hc),
               fun m hm => slotInv_passthrough _ _ pre st.buf e (htkf m hm) (htk m hm)⟩

theorem dedupInv_init : dedupInv [] dedupInit := by
  constructor
  · intro c _
    intro o ho
    cases ho
  · intro m _
    intro o ho
    cases ho

theorem dedupInv_foldl (es : List RenderEvent) (pre : List RenderEvent)
    (st : DedupState) (h : dedupInv pre st) :
    dedupInv (pre ++ es) (es.foldl dedupStep st) := by
  induction es generalizing pre st with
  | nil => simpa using h
  | cons e es ih =>
      have h1 := dedupStep_inv pre st e h
      have h2 := ih (pre ++ [e]) (dedupStep st e) h1
      simpa [List.append_assoc] using h2

theorem dedupInv_run (es : List RenderEvent) :
    dedupInv es (es.foldl dedupStep dedupInit) := by
  have h := dedupInv_foldl es [] dedupInit dedupInv_init
  simpa using h

theorem filterMap_filter_single (buf : List (Option RenderEvent))
    (p : RenderEvent → Bool) (idx : Nat) (e : RenderEvent)
    (h1 : buf.get? idx = some (some e)) (hp : p e = true)
    (h2 : ∀ j, j ≠ idx → ∀ e2, buf.get? j = some (some e2) → p e2 = false) :
    (buf.filterMap id).filter p = [e] := by
  induction buf generalizing idx with
  | nil => cases h1
  | cons o rest ih =>
      cases idx with
      | zero =>
          have ho : o = some e := by injection h1
          subst ho
          have hrest : (rest.filterMap id).filter p = [] := by
            rw [List.filter_eq_nil_iff]
            intro a ha
            rcases List.mem_filterMap.mp ha with ⟨o2, ho2, hoe⟩
            have ho2a : o2 = some a := hoe
            subst ho2a
            rcases List.get?_of_mem ho2 with ⟨j, hj⟩
            have := h2 (j + 1) (by omega) a (by simpa using hj)
            simp [this]
          simp [List.filterMap_cons, List.filter_cons, hp, hrest]
      | succ j2 =>
          have h1' : rest.get? j2 = some (some e) := by simpa using h1
          have h2' : ∀ j, j ≠ j2 → ∀ e2, rest.get? j = some (some e2) →
              p e2 = false := by
            intro j hj e2 he2
            exact h2 (j + 1) (by omega) e2 (by simpa using he2)
          cases o with
          | none =>
              simp only [List.filterMap_cons]
              exact ih j2 h1' h2'
          | some e0 =>
              have hpe0 : p e0 = false := h2 0 (by omega) e0 rfl
              simp only [List.filterMap_cons, id, List.filter_cons, hpe0]
              simpa using ih j2 h1' h2'

theorem filterMap_filter_nil (buf : List (Option RenderEvent))
    (p : RenderEvent → Bool) (h : ∀ o ∈ buf, entryIs p o = false) :
    (buf.filterMap id).filter p = [] := by
  rw [List.filter_eq_nil_iff]
  intro a ha
  rcases List.mem_filterMap.mp ha with ⟨o, ho, hoe⟩
  have hoa : o = some a := hoe
  subst hoa
  have := h (some a) ho
  simp [entryIs] at this
  simp [this]

/-- Claim C8: in the subscriber rendering deduplication, at most one
tool_call per callId survives — the survivor is exactly the last tool_call
record with that callId in the input — and a later tool_call whose callId
was already seen replaces the earlier record in place: the buffer is updated
at the first occurrence's position, with no entry added. The input event
list itself is read-only for this pass, so the log keeps both records. -/
theorem C8_subscriber_toolcall_dedup (es : List RenderEvent) (c : String)
    (hc : c ≠ "") :
    ((dedupEvents es).filter (isTcFor c)
      = match lastMatch (isTcFor c) es with
        | some e => [e]
        | none => []) ∧
    ((dedupEvents es).filter (isTcFor c)).length ≤ 1 ∧
    (∀ (e : RenderEvent) (idx : Nat), isTcFor c e = true →
      mapGet ((es.foldl dedupStep dedupInit).seenToolCalls) c = some idx →
      ((es ++ [e]).foldl dedupStep dedupInit).buf
        = ((es.foldl dedupStep dedupInit).buf).set idx (some e)) := by
  have hinv := dedupInv_run es
  have htc := hinv.1 c hc
  have hmain : (dedupEvents es).filter (isTcFor c)
      = match lastMatch (isTcFor c) es with
        | some e => [e]
        | none => [] := by
    rcases hseen : mapGet ((es.foldl dedupStep dedupInit).seenToolCalls) c
      with _ | idx
    · rw [hseen] at htc
      obtain ⟨hlast, hallfail⟩ := slotInv_none_elim _ _ _ htc
      rw [hlast]
      exact filterMap_filter_nil _ _ hallfail
    · rw [hseen] at htc
      obtain ⟨eold, hlast, hbuf, hpeold, hothers⟩ := slotInv_some_elim _ _ _ _ htc
      rw [hlast]
      exact filterMap_filter_single _ _ idx eold hbuf hpeold hothers
  refine ⟨hmain, ?_, ?_⟩
  · rw [hmain]
    cases lastMatch (isTcFor c) es <;> simp
  · intro e idx hpe hseen
    rw [List.foldl_append]
    simp only [List.foldl_cons, List.foldl_nil]
    have het : e.type = "tool_call" := by simpa using (band_true_split hpe).1
    have hcid : e.callId = some c := by simpa using (band_true_split hpe).2
    rw [dedupStep_tc_seen _ e c idx het hcid hc hseen]

/-- Witness for claim C8: the second record for callId c1 replaces the
first in the rendered view. -/
theorem C8_subscriber_toolcall_dedup_witness :
    (dedupEvents
      [⟨"e1", "tool_call", some "c1", none⟩,
       ⟨"e2", "tool_call", some "c1", none⟩]).filter (isTcFor "c1")
      = [⟨"e2", "tool_call", some "c1", none⟩] := by
  have h := C8_subscriber_toolcall_dedup
    [⟨"e1", "tool_call", some "c1", none⟩,
     ⟨"e2", "tool_call", some "c1", none⟩] "c1" (by decide)
  rw [h.1]
  decide

/-- Claim C10: in the subscriber rendering deduplication, at most one token
event per messageId survives — exactly the last token record for that
messageId — and a later token whose messageId was already seen nulls the
earlier buffer slot and is appended at the end, i.e. it is kept at its own
(latest) chronological position while the earlier one is removed. -/
theorem C10_subscriber_token_dedup (es : List RenderEvent) (m : String)
    (hm : m ≠ "") :
    ((dedupEvents es).filter (isTkFor m)
      = match lastMatch (isTkFor m) es with
        | some e => [e]
        | none => []) ∧
    ((dedupEvents es).filter (isTkFor m)).length ≤ 1 ∧
    (∀ (e : RenderEvent) (idx : Nat), isTkFor m e = true →
      mapGet ((es.foldl dedupStep dedupInit).seenTokens) m = some idx →
      ((es ++ [e]).foldl dedupStep dedupInit).buf
        = (((es.foldl dedupStep dedupInit).buf).set idx none) ++ [some e]) := by
  have hinv := dedupInv_run es
  have htk := hinv.2 m hm
  have hmain : (dedupEvents es).filter (isTkFor m)
      = match lastMatch (isTkFor m) es with
        | some e => [e]
        | none => [] := by
    rcases hseen : mapGet ((es.foldl dedupStep dedupInit).seenTokens) m
      with _ | idx
    · rw [hseen] at htk
      obtain ⟨hlast, hallfail⟩ := slotInv_none_elim _ _ _ htk
      rw [hlast]
      exact filterMap_filter_nil _ _ hallfail
    · rw [hseen] at htk
      obtain ⟨eold, hlast, hbuf, hpeold, hothers⟩ := slotInv_some_elim _ _ _ _ htk
      rw [hlast]
      exact filterMap_filter_single _ _ idx eold hbuf hpeold hothers
  refine ⟨hmain, ?_, ?_⟩
  · rw [hmain]
    cases lastMatch (isTkFor m) es <;> simp
  · intro e idx hpe hseen
    rw [List.foldl_append]
    simp only [List.foldl_cons, List.foldl_nil]
    have het : e.type = "token" := by simpa using (band_true_split hpe).1
    have hmid : e.messageId = some m := by simpa using (band_true_split hpe).2
    rw [dedupStep_tk_seen _ e m idx het hmid hm hseen]

/-- Witness for claim C10: the later token batch for msg-1 is the only one
rendered, at its own position after the intervening tool_call. -/
theorem C10_subscriber_token_dedup_witness :
    (dedupEvents
      [⟨"e1", "token", none, some "msg-1"⟩,
       ⟨"e2", "tool_call", some "c1", none⟩,
       ⟨"e3", "token", none, some "msg-1"⟩]).filter (isTkFor "msg-1")
      = [⟨"e3", "token", none, some "msg-1"⟩] ∧
    dedupEvents
      [⟨"e1", "token", none, some "msg-1"⟩,
       ⟨"e2", "tool_call", some "c1", none⟩,
       ⟨"e3", "token", none, some "msg-1"⟩]
      = [⟨"e2", "tool_call", some "c1", none⟩,
         ⟨"e3", "token", none, some "msg-1"⟩] := by
  have h := C10_subscriber_token_dedup
    [⟨"e1", "token", none, some "msg-1"⟩,
     ⟨"e2", "tool_call", some "c1", none⟩,
     ⟨"e3", "token", none, some "msg-1"⟩] "msg-1" (by decide)
  constructor
  · rw [h.1]
    decide
  · decide

end Wrench
